import Mathlib

/-!
Verification of the BioData Manager reconciliation pipeline
(`app_biodiversidad/utils.py` and `app_biodiversidad/app.py`).

The pandas data model is shallowly embedded: a `DataFrame` is an ordered
list of column labels together with a list of rows, each row a list of
cells aligned positionally with the labels.  A cell is a missing value
(`NaN`), a string, or an integer — the only cell kinds this pipeline
produces or inspects.  Text normalization (`str.strip`, `str.lower`)
is modelled on ASCII data, matching `Char.isWhitespace`/`Char.toLower`;
the pipeline's own logic is independent of the exact character class.
-/

/-- Cells of a pandas DataFrame as used by this app: a missing value (`NaN`),
a string, or an integer. -/
inductive Cell where
  | na : Cell
  | s (v : String) : Cell
  | n (k : Nat) : Cell
deriving DecidableEq, Repr

/-- Python `str(x)` as applied by `.astype(str)`: a float `NaN` prints as
`"nan"`, a string is unchanged, an integer prints in decimal. -/
def cellToStr : Cell → String
  | Cell.na => "nan"
  | Cell.s v => v
  | Cell.n k => toString k

/-- A pandas DataFrame: ordered column labels and rows of cells aligned
positionally with the labels. -/
structure DataFrame where
  cols : List String
  rows : List (List Cell)
deriving DecidableEq, Repr

/-- Well-formedness of a DataFrame (pandas guarantees it): every row has
exactly one cell per column. -/
def DataFrame.WF (df : DataFrame) : Prop :=
  ∀ r ∈ df.rows, r.length = df.cols.length

instance (df : DataFrame) : Decidable df.WF := by
  unfold DataFrame.WF; infer_instance

/-- Values of the column labelled `c` (label lookup finds the first matching
column, as pandas does for a unique label). -/
def colVals (df : DataFrame) (c : String) : List Cell :=
  df.rows.map (fun r => r.getD (df.cols.indexOf c) Cell.na)

/-- Python `str.strip` on the character list: drop leading whitespace, then
trailing whitespace. -/
def stripEnd (l : List Char) : List Char :=
  (l.reverse.dropWhile Char.isWhitespace).reverse

/-- Characters of a string with leading and trailing whitespace removed. -/
def stripChars (l : List Char) : List Char :=
  stripEnd (l.dropWhile Char.isWhitespace)

/-- Python `str.strip()` (whitespace on both ends removed). -/
def pyStrip (s : String) : String := ⟨stripChars s.data⟩

/-- Python `str.lower()` (per-character lower-casing). -/
def pyLower (s : String) : String := ⟨s.data.map Char.toLower⟩

/-- `df.rename(columns={orig: std})`: every column labelled `orig` is
relabelled `std`; rows are untouched. -/
def renameCols (orig std : String) (cols : List String) : List String :=
  cols.map (fun x => if x = orig then std else x)

/-- One row of `df[col] = df[col].astype(str).str.strip()` (utils.py:75-79):
the cell at the species column is coerced to text and stripped. -/
def stripStep (idx : Nat) (r : List Cell) : List Cell :=
  r.set idx (Cell.s (pyStrip (cellToStr (r.getD idx Cell.na))))

/-- The row filter `df[df[col] != ""]` (utils.py:82). -/
def keepStep (idx : Nat) (r : List Cell) : Bool :=
  r.getD idx Cell.na ≠ Cell.s ""

/-- `.str.lower()` on a single cell: lower-cases a string, leaves `NaN`
(and anything else) unchanged. -/
def cellLower : Cell → Cell
  | Cell.s v => Cell.s (pyLower v)
  | c => c

/-- One row of `df[col] = df[col].str.lower()` (utils.py:85). -/
def lowerStep (idx : Nat) (r : List Cell) : List Cell :=
  r.set idx (cellLower (r.getD idx Cell.na))

/-- Rows of `limpiar_dataframe` after the strip, empty-filter and lower
stages (utils.py:72-85), before duplicate removal. -/
def preDedupRows (idx : Nat) (rows : List (List Cell)) : List (List Cell) :=
  ((rows.map (stripStep idx)).filter (keepStep idx)).map (lowerStep idx)

/-- `drop_duplicates(subset=[k])` with `keep="first"` (the pandas default,
utils.py:88): keep a row only if its key was not seen in an earlier row. -/
def dedupByAux {α β : Type} [DecidableEq β] (key : α → β) (seen : List β) : List α → List α
  | [] => []
  | x :: xs =>
      if key x ∈ seen then dedupByAux key seen xs
      else x :: dedupByAux key (key x :: seen) xs

/-- Duplicate removal by key, keeping the first occurrence in row order. -/
def dedupBy {α β : Type} [DecidableEq β] (key : α → β) (l : List α) : List α :=
  dedupByAux key [] l

/-- Failures of `limpiar_dataframe`: the explicit `ValueError` for a missing
species column (utils.py:59-62), and the `AttributeError` pandas raises at
utils.py:75-79 when the canonical label is duplicated after the rename
(selecting a duplicated label yields a DataFrame, which has no `.str`). -/
inductive LimpiarError where
  | missingColumn (c : String) : LimpiarError
  | nonSeriesSelection : LimpiarError
deriving DecidableEq, Repr

/-- `limpiar_dataframe(df, columna_especie_original, columna_estandar)`
(utils.py:44-91): check the species column exists, rename it to the
canonical name, coerce to stripped text, drop rows whose value became the
empty string, lower-case, and drop duplicate species keeping the first. -/
def limpiar_dataframe (df : DataFrame) (orig std : String) :
    Except LimpiarError DataFrame :=
  if orig ∈ df.cols then
    let cols' := renameCols orig std df.cols
    if 1 < cols'.count std then Except.error LimpiarError.nonSeriesSelection
    else
      let idx := cols'.indexOf std
      Except.ok ⟨cols', dedupBy (fun r => r.getD idx Cell.na) (preDedupRows idx df.rows)⟩
  else Except.error (LimpiarError.missingColumn orig)

/-- Specification-side definition ("keeping the first occurrence of each
duplicate in the original row order"): fold over the values, appending a
value only the first time it is seen.  It is compared with the
source-derived `dedupBy` in the C2 theorem. -/
def firstOccurrences {β : Type} [DecidableEq β] (l : List β) : List β :=
  l.foldl (fun acc v => if v ∈ acc then acc else acc ++ [v]) []

/-- Species set of one source (utils.py:117-121):
`set(df[columna_estandar].dropna().unique())` — the distinct non-null
values of the canonical column, in first-seen order (only membership is
used downstream, matching the Python `set`). -/
def speciesSetOf (canon : String) (df : DataFrame) : List Cell :=
  dedupBy id ((colVals df canon).filter (fun v => v ≠ Cell.na))

/-- Lexicographic comparison of character lists by code point — exactly the
string comparison Python uses for `sorted`/`sort_values` on `str` values. -/
def lexLe : List Char → List Char → Bool
  | [], _ => true
  | _ :: _, [] => false
  | a :: as, b :: bs => if a = b then lexLe as bs else decide (a < b)

/-- Total comparison on cells.  Normalized species values are strings and
are compared lexicographically by code point, as Python does; the other
constructor combinations are given a fixed tie-break so the order is total
(pandas would raise on mixed-type object columns, which cannot occur for
normalized inputs). -/
def cellLe : Cell → Cell → Bool
  | Cell.s x, Cell.s y => lexLe x.data y.data
  | Cell.na, _ => true
  | Cell.n _, Cell.na => false
  | Cell.n j, Cell.n k => j ≤ k
  | Cell.n _, Cell.s _ => true
  | Cell.s _, Cell.na => false
  | Cell.s _, Cell.n _ => false

/-- The `num_fuentes` value of an intersection-table row (column position 1
in the table built at utils.py:150-156). -/
def rowNum (r : List Cell) : Nat :=
  match r.getD 1 Cell.na with
  | Cell.n k => k
  | _ => 0

/-- The canonical-species cell of an intersection-table row (column
position 0). -/
def rowSpecies (r : List Cell) : Cell := r.getD 0 Cell.na

/-- Row order of `sort_values(by=["num_fuentes", columna_estandar],
ascending=[False, True])` (utils.py:167-170): `num_fuentes` descending,
then species ascending. -/
def interRel (r1 r2 : List Cell) : Prop :=
  rowNum r2 < rowNum r1 ∨
    (rowNum r1 = rowNum r2 ∧ cellLe (rowSpecies r1) (rowSpecies r2) = true)

instance : DecidableRel interRel := fun r1 r2 => by
  unfold interRel; infer_instance

/-- Number of sources whose species set contains `e` (the quantity the C1
claim calls the count of input sources containing the species). -/
def sourceCount (sets : List (String × List Cell)) (e : Cell) : Nat :=
  (sets.filter (fun p => e ∈ p.2)).length

/-- The value of a 0/1 or count cell (0 for anything that is not an
integer cell). -/
def cellNat : Cell → Nat
  | Cell.n k => k
  | _ => 0

/-- The presence map of one species (utils.py:139-142): for each source, a
boolean telling whether its species set contains the species. -/
def presencia (sets : List (String × List Cell)) (e : Cell) : List (String × Bool) :=
  sets.map (fun p => (p.1, decide (e ∈ p.2)))

/-- `num_fuentes = sum(presencia.values())` (utils.py:145): booleans count
as 1/0 in a Python sum. -/
def numFuentesOf (sets : List (String × List Cell)) (e : Cell) : Nat :=
  ((presencia sets e).map (fun q => if q.2 then 1 else 0)).sum

/-- One row of the intersection table (utils.py:150-156): the species, its
`num_fuentes`, then one 1/0 cell per source in mapping order. -/
def filaOf (sets : List (String × List Cell)) (e : Cell) : List Cell :=
  e :: Cell.n (numFuentesOf sets e)
    :: (presencia sets e).map (fun q => Cell.n (if q.2 then 1 else 0))

/-- The row list `filas` (utils.py:135-159): one row per species of the
union of the species sets that is present in at least two sources.  The
Python `set` union is iterated in unspecified order; the model iterates
the deduplicated concatenation — the final table does not depend on this
order because every retained species yields exactly one row and the table
is sorted by an injective key before being returned. -/
def filasOf (sets : List (String × List Cell)) : List (List Cell) :=
  (dedupBy id (sets.flatMap (fun p => p.2))).filterMap (fun e =>
    if 2 ≤ numFuentesOf sets e then some (filaOf sets e) else none)

/-- `construir_interseccion(fuentes_limpias, columna_estandar)`
(utils.py:94-175).  Returns the per-source species sets and the
intersection table.  An empty source mapping yields an empty table with
only the canonical column (utils.py:126-127); `pd.DataFrame` of an empty
row list (no species shared by two sources) has no columns at all; a
non-empty table has the canonical column, `num_fuentes` and one column
per source, and is sorted by `num_fuentes` descending then species
ascending (utils.py:162-170). -/
def construir_interseccion (fuentes : List (String × DataFrame)) (canon : String) :
    List (String × List Cell) × DataFrame :=
  if fuentes.isEmpty then
    (fuentes.map (fun p => (p.1, speciesSetOf canon p.2)), ⟨[canon], []⟩)
  else if (filasOf (fuentes.map (fun p => (p.1, speciesSetOf canon p.2)))).isEmpty then
    (fuentes.map (fun p => (p.1, speciesSetOf canon p.2)), ⟨[], []⟩)
  else
    (fuentes.map (fun p => (p.1, speciesSetOf canon p.2)),
     ⟨canon :: "num_fuentes" :: fuentes.map Prod.fst,
      List.insertionSort interRel
        (filasOf (fuentes.map (fun p => (p.1, speciesSetOf canon p.2))))⟩)

/-- Left merge on a key column (`tabla_final.merge(df_src, on=key,
how="left")`, app.py:231-235): result columns are the left columns
followed by the non-key right columns; every left row is matched against
the right rows with an equal key cell, keeping left order, with `NaN`
fills when no right row matches.  (The right table of every merge in this
app has been deduplicated on the key, so a left row never multiplies.) -/
def mergeLeft (key : String) (l r : DataFrame) : DataFrame :=
  let ki := r.cols.indexOf key
  let keep := (List.range r.cols.length).filter (fun i => r.cols.getD i "" ≠ key)
  { cols := l.cols ++ keep.map (fun i => r.cols.getD i ""),
    rows := l.rows.flatMap (fun lr =>
      let k := lr.getD (l.cols.indexOf key) Cell.na
      let ms := r.rows.filter (fun rr => rr.getD ki Cell.na = k)
      if ms.isEmpty then [lr ++ keep.map (fun _ => Cell.na)]
      else ms.map (fun rr => lr ++ keep.map (fun i => rr.getD i Cell.na))) }

/-- The two-column projection `fuentes_limpias[nombre][[columna_estandar,
extra_col]]` (app.py:225-228), by label lookup. -/
def seleccionExtra (canon extra : String) (srcDf : DataFrame) : DataFrame :=
  ⟨[canon, extra], srcDf.rows.map (fun r =>
     [r.getD (srcDf.cols.indexOf canon) Cell.na, r.getD (srcDf.cols.indexOf extra) Cell.na])⟩

/-- One enrichment step (app.py:224-235): project the source to the
canonical and extra columns, deduplicate by species, rename the extra
column by label to `{source}_{extra}` — pandas `rename(columns=...)`
relabels every column carrying that label, so declaring the canonical
column itself as the extra column relabels both copies of the duplicated
label, the merge key included — and left-merge onto the accumulated
table by the canonical column.  pandas raises (modelled as
`Except.error`) when a selected label is absent; when the merge key is
not a column of the left table, which happens when the intersection
table is the zero-column empty frame; and when after the rename the
right frame does not carry the canonical label exactly once: with
`extra = canon` the key was renamed away (`KeyError`), and when the
generated name itself equals the canonical label the key label is
duplicated, which the merge also rejects. -/
def enrichOne (canon : String) (tbl : DataFrame) (src extra : String) (srcDf : DataFrame) :
    Except Unit DataFrame :=
  if canon ∈ srcDf.cols ∧ extra ∈ srcDf.cols then
    if canon ∈ tbl.cols ∧
        (renameCols extra (src ++ "_" ++ extra) [canon, extra]).count canon = 1 then
      Except.ok (mergeLeft canon tbl
        ⟨renameCols extra (src ++ "_" ++ extra) [canon, extra],
         dedupBy (fun r => r.getD 0 Cell.na) (seleccionExtra canon extra srcDf).rows⟩)
    else Except.error ()
  else Except.error ()

/-- The enrichment loop over `extra_cols_map.items()` (app.py:222-235),
starting from the intersection table.  Each list element carries the
source name, its extra column and its normalized table
(`fuentes_limpias[nombre_fuente]`; source names are unique dictionary
keys in the app). -/
def tabla_final (canon : String) (inter : DataFrame)
    (pares : List (String × String × DataFrame)) : Except Unit DataFrame :=
  pares.foldlM (fun acc p => enrichOne canon acc p.1 p.2.1 p.2.2) inter

/-- Name of the enrichment column a pair contributes:
`f"{nombre_fuente}_{extra_col}"` (app.py:229). -/
def nuevoNombreCol (p : String × String × DataFrame) : String := p.1 ++ "_" ++ p.2.1

/-- The enrichment value a pair associates to a species key: the extra
cell of the first source row with that canonical value, `NaN` when the
source has no such row. -/
def enrichCell (canon : String) (p : String × String × DataFrame) (k : Cell) : Cell :=
  match (dedupBy (fun r => r.getD 0 Cell.na) (seleccionExtra canon p.2.1 p.2.2).rows).find?
      (fun rr => rr.getD 0 Cell.na = k) with
  | some rr => rr.getD 1 Cell.na
  | none => Cell.na

/-- Configuration of one loaded source as the processing loop sees it
(app.py:190-210): display name, cleaned table, and the user-declared
extra column (empty string when none was requested). -/
structure SourceCfg where
  name : String
  dfClean : DataFrame
  extraCol : String
deriving DecidableEq, Repr

/-- The loop of app.py:203-210 building `extra_cols_map`: a source with a
non-empty declared extra column is added to the merge plan when the
column exists in its cleaned table, and otherwise only produces a warning
(`st.warning`, modelled by recording the source name); the run continues
either way. -/
def pasoExtra (acc : List (String × String × DataFrame) × List String) (s : SourceCfg) :
    List (String × String × DataFrame) × List String :=
  if s.extraCol = "" then acc
  else if s.extraCol ∈ s.dfClean.cols then
    (acc.1 ++ [(s.name, s.extraCol, s.dfClean)], acc.2)
  else (acc.1, acc.2 ++ [s.name])

/-- The whole loop: merge plan entries and warnings accumulated over the
sources in order. -/
def procesar_extra (srcs : List SourceCfg) :
    List (String × String × DataFrame) × List String :=
  srcs.foldl pasoExtra ([], [])

/-- Agreement of two tables up to column order: same columns as a
multiset, same number of rows, and the same cell at every row index and
column label. -/
def EquivTable (d1 d2 : DataFrame) : Prop :=
  d1.cols.Perm d2.cols ∧ d1.rows.length = d2.rows.length ∧
    ∀ i c, c ∈ d1.cols →
      (d1.rows.getD i []).getD (d1.cols.indexOf c) Cell.na
        = (d2.rows.getD i []).getD (d2.cols.indexOf c) Cell.na

/-- Example raw table: mixed case and spacing, one blank species, one
missing species, one duplicate after normalization. -/
def dfEjemplo1 : DataFrame :=
  ⟨["Especie", "Pais"],
   [[Cell.s "  Felis CATUS ", Cell.s "CO"],
    [Cell.s "felis catus", Cell.s "PE"],
    [Cell.s "   ", Cell.s "BR"],
    [Cell.na, Cell.s "EC"]]⟩

/-- Normalized form of `dfEjemplo1` under species column `"Especie"`. -/
def outEjemplo1 : DataFrame :=
  ⟨["scientificName", "Pais"],
   [[Cell.s "felis catus", Cell.s "CO"],
    [Cell.s "nan", Cell.s "EC"]]⟩

/-- Example normalized source A. -/
def dfFuenteA : DataFrame :=
  ⟨["scientificName"], [[Cell.s "felis catus"], [Cell.s "canis lupus"]]⟩

/-- Example normalized source B. -/
def dfFuenteB : DataFrame :=
  ⟨["scientificName"], [[Cell.s "felis catus"]]⟩

/-- Example normalized source C, disjoint from A and B. -/
def dfFuenteC : DataFrame :=
  ⟨["scientificName"], [[Cell.s "ara macao"]]⟩

/-- Example normalized source with an extra attribute column. -/
def dfFuenteX : DataFrame :=
  ⟨["scientificName", "status"],
   [[Cell.s "felis catus", Cell.s "LC"], [Cell.s "ara macao", Cell.s "NT"]]⟩

/-- Example normalized source with a second extra attribute column. -/
def dfFuenteY : DataFrame :=
  ⟨["scientificName", "habitat"],
   [[Cell.s "canis lupus", Cell.s "bosque"]]⟩

/-- Example intersection table with two sources and one matched species. -/
def interEjemplo : DataFrame :=
  ⟨["scientificName", "num_fuentes", "A", "B"],
   [[Cell.s "felis catus", Cell.n 2, Cell.n 1, Cell.n 1],
    [Cell.s "canis lupus", Cell.n 2, Cell.n 1, Cell.n 1]]⟩

/-- C7: `limpiar_dataframe` fails with a MissingColumn error naming `e` if
and only if `e` is the declared species column and the table has no column
by that exact name.  In particular, when the column exists no MissingColumn
error is raised; the input table is a pure value and is never modified
(the source operates on `df.copy()`). -/
theorem limpiar_missingColumn_iff (df : DataFrame) (orig std e : String) :
    limpiar_dataframe df orig std = Except.error (LimpiarError.missingColumn e)
      ↔ (e = orig ∧ orig ∉ df.cols) := by
  unfold limpiar_dataframe
  by_cases h : orig ∈ df.cols
  · rw [if_pos h]
    constructor
    · intro hEq
      simp only at hEq
      split at hEq <;> simp_all
    · rintro ⟨-, hAbs⟩
      exact absurd h hAbs
  · rw [if_neg h]
    constructor
    · intro hEq
      injection hEq with hEq'
      injection hEq' with hc
      exact ⟨hc.symm, h⟩
    · rintro ⟨rfl, -⟩
      rfl

theorem getD_set_self {α : Type} (l : List α) (i : Nat) (v d : α) (h : i < l.length) :
    (l.set i v).getD i d = v := by
  rw [List.getD_eq_getElem?_getD, List.getElem?_set_self h]
  rfl

theorem set_getD_eq_self {α : Type} (l : List α) (i : Nat) (d : α) :
    l.set i (l.getD i d) = l := by
  induction l generalizing i with
  | nil => rfl
  | cons x xs ih =>
    cases i with
    | zero => rfl
    | succ j => simpa [List.set, List.getD] using ih j

theorem dropWhile_first_false {α : Type} (p : α → Bool) (l : List α) (x : α) (xs : List α)
    (h : l.dropWhile p = x :: xs) : p x = false := by
  induction l with
  | nil => cases h
  | cons a as ih =>
    rw [List.dropWhile_cons] at h
    split at h
    · exact ih h
    · cases h
      rename_i hpx
      cases hv : p x
      · rfl
      · exact absurd hv hpx

theorem dropWhile_dropWhile {α : Type} (p : α → Bool) (l : List α) :
    (l.dropWhile p).dropWhile p = l.dropWhile p := by
  cases hd : l.dropWhile p with
  | nil => rfl
  | cons x xs =>
    rw [List.dropWhile_cons, dropWhile_first_false p l x xs hd]
    simp

theorem dropWhile_append_exists {α : Type} (p : α → Bool) (l : List α) :
    ∃ u, u ++ l.dropWhile p = l := by
  induction l with
  | nil => exact ⟨[], rfl⟩
  | cons a as ih =>
    rw [List.dropWhile_cons]
    by_cases h : p a = true
    · obtain ⟨u, hu⟩ := ih
      exact ⟨a :: u, by simp [h, hu]⟩
    · exact ⟨[], by simp [h]⟩

theorem dropWhile_eq_self_of_first {α : Type} (p : α → Bool) (l : List α)
    (h : ∀ x xs, l = x :: xs → p x = false) : l.dropWhile p = l := by
  cases l with
  | nil => rfl
  | cons x xs =>
    rw [List.dropWhile_cons, h x xs rfl]
    simp

theorem stripEnd_idem (l : List Char) : stripEnd (stripEnd l) = stripEnd l := by
  unfold stripEnd
  rw [List.reverse_reverse, dropWhile_dropWhile]

theorem stripEnd_append_exists (l : List Char) : ∃ u, stripEnd l ++ u = l := by
  obtain ⟨u, hu⟩ := dropWhile_append_exists Char.isWhitespace l.reverse
  refine ⟨u.reverse, ?_⟩
  have := congrArg List.reverse hu
  rw [List.reverse_append, List.reverse_reverse] at this
  simpa [stripEnd] using this

theorem stripChars_idem (l : List Char) : stripChars (stripChars l) = stripChars l := by
  unfold stripChars
  have hm : (stripEnd (l.dropWhile Char.isWhitespace)).dropWhile Char.isWhitespace
      = stripEnd (l.dropWhile Char.isWhitespace) := by
    apply dropWhile_eq_self_of_first
    intro x xs hx
    obtain ⟨u, hu⟩ := stripEnd_append_exists (l.dropWhile Char.isWhitespace)
    rw [hx] at hu
    exact dropWhile_first_false Char.isWhitespace l x (xs ++ u) (by rw [← hu]; simp)
  rw [hm, stripEnd_idem]

theorem pyStrip_idem (s : String) : pyStrip (pyStrip s) = pyStrip s :=
  congrArg String.mk (stripChars_idem s.data)

theorem char_ne_of_toNat_ne {c d : Char} (h : c.toNat ≠ d.toNat) : c ≠ d :=
  fun he => h (congrArg Char.toNat he)

theorem char_toLower_eq_of_upper {c : Char} (h : 65 ≤ c.toNat ∧ c.toNat ≤ 90) :
    Char.toLower c = Char.ofNat (c.toNat + 32) := by
  rw [Char.toLower]
  exact if_pos h

theorem char_toLower_eq_self {c : Char} (h : ¬(65 ≤ c.toNat ∧ c.toNat ≤ 90)) :
    Char.toLower c = c := by
  rw [Char.toLower]
  exact if_neg h

theorem char_toNat_ofNat_valid {m : Nat} (h : m < 55296) : (Char.ofNat m).toNat = m := by
  rw [Char.ofNat, dif_pos (Or.inl h)]
  rfl

theorem char_toNat_toLower_of_upper {c : Char} (h : 65 ≤ c.toNat ∧ c.toNat ≤ 90) :
    (Char.toLower c).toNat = c.toNat + 32 := by
  rw [char_toLower_eq_of_upper h, char_toNat_ofNat_valid (by omega)]

theorem char_isWhitespace_toLower (c : Char) :
    (Char.toLower c).isWhitespace = c.isWhitespace := by
  by_cases h : 65 ≤ c.toNat ∧ c.toNat ≤ 90
  · have h1 : (Char.toLower c).toNat = c.toNat + 32 := char_toNat_toLower_of_upper h
    have hws1 : (Char.toLower c).isWhitespace = false := by
      have e1 : Char.toLower c ≠ ' ' := char_ne_of_toNat_ne (by rw [h1]; show _ ≠ 32; omega)
      have e2 : Char.toLower c ≠ '\t' := char_ne_of_toNat_ne (by rw [h1]; show _ ≠ 9; omega)
      have e3 : Char.toLower c ≠ '\x0d' := char_ne_of_toNat_ne (by rw [h1]; show _ ≠ 13; omega)
      have e4 : Char.toLower c ≠ '\n' := char_ne_of_toNat_ne (by rw [h1]; show _ ≠ 10; omega)
      simp [Char.isWhitespace, e1, e2, e3, e4]
    have hws2 : c.isWhitespace = false := by
      have e1 : c ≠ ' ' := char_ne_of_toNat_ne (by show _ ≠ 32; omega)
      have e2 : c ≠ '\t' := char_ne_of_toNat_ne (by show _ ≠ 9; omega)
      have e3 : c ≠ '\x0d' := char_ne_of_toNat_ne (by show _ ≠ 13; omega)
      have e4 : c ≠ '\n' := char_ne_of_toNat_ne (by show _ ≠ 10; omega)
      simp [Char.isWhitespace, e1, e2, e3, e4]
    rw [hws1, hws2]
  · rw [char_toLower_eq_self h]

theorem char_toLower_idem (c : Char) :
    Char.toLower (Char.toLower c) = Char.toLower c := by
  by_cases h : 65 ≤ c.toNat ∧ c.toNat ≤ 90
  · have h1 : (Char.toLower c).toNat = c.toNat + 32 := char_toNat_toLower_of_upper h
    apply char_toLower_eq_self
    rw [h1]
    omega
  · rw [char_toLower_eq_self h]
    exact char_toLower_eq_self h

theorem dropWhile_map_toLower (l : List Char) :
    (l.map Char.toLower).dropWhile Char.isWhitespace
      = (l.dropWhile Char.isWhitespace).map Char.toLower := by
  rw [List.dropWhile_map]
  have hf : (Char.isWhitespace ∘ Char.toLower) = Char.isWhitespace := by
    funext c
    exact char_isWhitespace_toLower c
  rw [hf]

theorem stripEnd_map_toLower (l : List Char) :
    stripEnd (l.map Char.toLower) = (stripEnd l).map Char.toLower := by
  unfold stripEnd
  rw [← List.map_reverse, dropWhile_map_toLower, List.map_reverse]

theorem stripChars_map_toLower (l : List Char) :
    stripChars (l.map Char.toLower) = (stripChars l).map Char.toLower := by
  unfold stripChars
  rw [dropWhile_map_toLower, stripEnd_map_toLower]

theorem pyStrip_pyLower (s : String) : pyStrip (pyLower s) = pyLower (pyStrip s) :=
  congrArg String.mk (stripChars_map_toLower s.data)

theorem pyLower_idem (s : String) : pyLower (pyLower s) = pyLower s := by
  apply congrArg String.mk
  show (s.data.map Char.toLower).map Char.toLower = s.data.map Char.toLower
  rw [List.map_map]
  congr 1
  funext c
  exact char_toLower_idem c

theorem pyLower_ne_empty {s : String} (h : s ≠ "") : pyLower s ≠ "" := by
  intro he
  apply h
  cases s with
  | mk data =>
    cases data with
    | nil => rfl
    | cons a as => exact absurd (congrArg String.data he) (by simp [pyLower])

theorem dedupByAux_sublist {α β : Type} [DecidableEq β] (key : α → β) (l : List α) :
    ∀ seen, (dedupByAux key seen l).Sublist l := by
  induction l with
  | nil => intro seen; simp [dedupByAux]
  | cons x xs ih =>
    intro seen
    simp only [dedupByAux]
    split
    · exact (ih seen).trans (List.sublist_cons_self x xs)
    · exact (ih (key x :: seen)).cons₂ x

theorem dedupBy_sublist {α β : Type} [DecidableEq β] (key : α → β) (l : List α) :
    (dedupBy key l).Sublist l :=
  dedupByAux_sublist key l []

theorem dedupByAux_keys {α β : Type} [DecidableEq β] (key : α → β) (l : List α) :
    ∀ seen, ((dedupByAux key seen l).map key).Nodup ∧
      ∀ b ∈ (dedupByAux key seen l).map key, b ∉ seen := by
  induction l with
  | nil => intro seen; exact ⟨by simp [dedupByAux], by simp [dedupByAux]⟩
  | cons x xs ih =>
    intro seen
    simp only [dedupByAux]
    split
    · exact ih seen
    · rename_i hx
      obtain ⟨ih1, ih2⟩ := ih (key x :: seen)
      refine ⟨?_, ?_⟩
      · simp only [List.map_cons, List.nodup_cons]
        exact ⟨fun hmem => (ih2 _ hmem) (List.mem_cons_self _ _), ih1⟩
      · intro b hb
        simp only [List.map_cons, List.mem_cons] at hb
        rcases hb with rfl | hb
        · exact hx
        · intro hbseen
          exact (ih2 b hb) (List.mem_cons_of_mem _ hbseen)

theorem dedupBy_keys_nodup {α β : Type} [DecidableEq β] (key : α → β) (l : List α) :
    ((dedupBy key l).map key).Nodup :=
  (dedupByAux_keys key l []).1

theorem dedupByAux_eq_self {α β : Type} [DecidableEq β] (key : α → β) (l : List α) :
    ∀ seen, (∀ a ∈ l, key a ∉ seen) → (l.map key).Nodup → dedupByAux key seen l = l := by
  induction l with
  | nil => intro seen _ _; rfl
  | cons x xs ih =>
    intro seen hseen hnd
    simp only [List.map_cons, List.nodup_cons] at hnd
    simp only [dedupByAux]
    rw [if_neg (hseen x (List.mem_cons_self x xs))]
    congr 1
    apply ih
    · intro a ha hmem
      rcases List.mem_cons.mp hmem with heq | hmem'
      · exact hnd.1 (heq ▸ List.mem_map_of_mem key ha)
      · exact (hseen a (List.mem_cons_of_mem x ha)) hmem'
    · exact hnd.2

theorem dedupBy_eq_self {α β : Type} [DecidableEq β] (key : α → β) (l : List α)
    (h : (l.map key).Nodup) : dedupBy key l = l :=
  dedupByAux_eq_self key l [] (by simp) h

theorem dedupByAux_keys_complete {α β : Type} [DecidableEq β] (key : α → β) (l : List α) :
    ∀ seen, ∀ a ∈ l, key a ∈ seen ∨ key a ∈ (dedupByAux key seen l).map key := by
  induction l with
  | nil => intro seen a ha; cases ha
  | cons x xs ih =>
    intro seen a ha
    simp only [dedupByAux]
    rcases List.mem_cons.mp ha with rfl | ha'
    · split
      · rename_i h; exact Or.inl h
      · right; simp
    · split
      · exact ih seen a ha'
      · rcases ih (key x :: seen) a ha' with h | h
        · rcases List.mem_cons.mp h with heq | hseen
          · right
            rw [heq]
            simp
          · exact Or.inl hseen
        · right
          simp only [List.map_cons, List.mem_cons]
          exact Or.inr h

theorem dedupBy_keys_complete {α β : Type} [DecidableEq β] (key : α → β) (l : List α)
    (a : α) (ha : a ∈ l) : key a ∈ (dedupBy key l).map key := by
  rcases dedupByAux_keys_complete key l [] a ha with h | h
  · cases h
  · exact h

theorem foldl_firstOcc_append {α β : Type} [DecidableEq β] (key : α → β) (l : List α) :
    ∀ seen acc, (∀ b, b ∈ acc ↔ b ∈ seen) →
      (l.map key).foldl (fun acc v => if v ∈ acc then acc else acc ++ [v]) acc
        = acc ++ (dedupByAux key seen l).map key := by
  induction l with
  | nil => intro seen acc _; simp [dedupByAux]
  | cons x xs ih =>
    intro seen acc hiff
    simp only [List.map_cons, List.foldl_cons, dedupByAux]
    by_cases hx : key x ∈ seen
    · rw [if_pos ((hiff _).mpr hx), if_pos hx]
      exact ih seen acc hiff
    · rw [if_neg (fun h => hx ((hiff _).mp h)), if_neg hx]
      rw [ih (key x :: seen) (acc ++ [key x]) ?_]
      · simp
      · intro b
        simp [hiff b, or_comm]

theorem dedupBy_map_key_firstOccurrences {α β : Type} [DecidableEq β] (key : α → β)
    (l : List α) : (dedupBy key l).map key = firstOccurrences (l.map key) := by
  unfold firstOccurrences dedupBy
  rw [foldl_firstOcc_append key l [] [] (fun b => Iff.rfl)]
  simp

theorem renameCols_length (orig std : String) (cols : List String) :
    (renameCols orig std cols).length = cols.length := by
  simp [renameCols]

theorem mem_renameCols_of_mem (orig std : String) (cols : List String) (h : orig ∈ cols) :
    std ∈ renameCols orig std cols := by
  unfold renameCols
  have hmem := List.mem_map_of_mem (fun x => if x = orig then std else x) h
  simpa using hmem

theorem renameCols_indexOf_eq (orig std : String) (cols : List String)
    (h : orig ∈ cols) (hcount : (renameCols orig std cols).count std ≤ 1) :
    (renameCols orig std cols).indexOf std = cols.indexOf orig := by
  induction cols with
  | nil => cases h
  | cons x xs ih =>
    by_cases hx : x = orig
    · subst hx
      simp [renameCols, List.indexOf_cons_self]
    · have hox : orig ∈ xs := by
        rcases List.mem_cons.mp h with h' | h'
        · exact absurd h'.symm hx
        · exact h'
      have hrn : renameCols orig std (x :: xs) = x :: renameCols orig std xs := by
        simp [renameCols, hx]
      by_cases hxs : x = std
      · exfalso
        subst hxs
        have h1 : x ∈ renameCols orig x xs := mem_renameCols_of_mem orig x xs hox
        rw [hrn, List.count_cons_self] at hcount
        have h2 : 0 < (renameCols orig x xs).count x := List.count_pos_iff.mpr h1
        omega
      · rw [hrn, List.indexOf_cons_ne _ hxs, List.indexOf_cons_ne _ hx]
        have hcount' : (renameCols orig std xs).count std ≤ 1 := by
          rw [hrn, List.count_cons_of_ne (fun he => hxs he.symm)] at hcount
          exact hcount
        rw [ih hox hcount']

theorem limpiar_ok_iff (df : DataFrame) (orig std : String) (out : DataFrame) :
    limpiar_dataframe df orig std = Except.ok out ↔
      (orig ∈ df.cols ∧ (renameCols orig std df.cols).count std ≤ 1 ∧
        out = ⟨renameCols orig std df.cols,
          dedupBy (fun r => r.getD ((renameCols orig std df.cols).indexOf std) Cell.na)
            (preDedupRows ((renameCols orig std df.cols).indexOf std) df.rows)⟩) := by
  unfold limpiar_dataframe
  by_cases h : orig ∈ df.cols
  · rw [if_pos h]
    simp only
    by_cases hc : 1 < (renameCols orig std df.cols).count std
    · rw [if_pos hc]
      constructor
      · intro he; cases he
      · rintro ⟨-, hle, -⟩; omega
    · rw [if_neg hc]
      constructor
      · intro he
        injection he with he'
        exact ⟨h, by omega, he'.symm⟩
      · rintro ⟨-, -, rfl⟩; rfl
  · rw [if_neg h]
    constructor
    · intro he; cases he
    · rintro ⟨hh, -, -⟩; exact absurd hh h

theorem preDedupRows_val (idx : Nat) (rows : List (List Cell))
    (hlen : ∀ r ∈ rows, idx < r.length) :
    ∀ r ∈ preDedupRows idx rows,
      ∃ w, r.getD idx Cell.na = Cell.s w ∧ w ≠ "" ∧ pyStrip w = w ∧ pyLower w = w := by
  intro r hr
  unfold preDedupRows at hr
  obtain ⟨r1, hr1, rfl⟩ := List.mem_map.mp hr
  have hr1' := List.mem_filter.mp hr1
  obtain ⟨r0, hr0, rfl⟩ := List.mem_map.mp hr1'.1
  have hkeep := hr1'.2
  have hl0 : idx < r0.length := hlen r0 hr0
  have hv1 : (stripStep idx r0).getD idx Cell.na
      = Cell.s (pyStrip (cellToStr (r0.getD idx Cell.na))) := getD_set_self _ _ _ _ hl0
  have hne : pyStrip (cellToStr (r0.getD idx Cell.na)) ≠ "" := by
    intro h0
    unfold keepStep at hkeep
    rw [hv1, h0] at hkeep
    simp at hkeep
  have hl1 : idx < (stripStep idx r0).length := by
    rw [stripStep, List.length_set]
    exact hl0
  have hv2 : (lowerStep idx (stripStep idx r0)).getD idx Cell.na
      = Cell.s (pyLower (pyStrip (cellToStr (r0.getD idx Cell.na)))) := by
    unfold lowerStep
    rw [hv1]
    exact getD_set_self _ _ _ _ hl1
  refine ⟨pyLower (pyStrip (cellToStr (r0.getD idx Cell.na))), hv2,
    pyLower_ne_empty hne, ?_, pyLower_idem _⟩
  rw [pyStrip_pyLower, pyStrip_idem]

/-- C2 (counterexample): the claim quantifies over every table containing
the declared species column, but when the table also contains a distinct
column already named like the canonical one, the rename at utils.py:68-70
duplicates the canonical label and the `.str` accessor at utils.py:75-79
raises (pandas: selecting a duplicated label yields a DataFrame, which has
no `.str`), so `normalize` fails instead of returning a table. -/
theorem limpiar_duplicate_canonical_cex :
    ("a" ∈ (⟨["a", "scientificName"], [[Cell.s "x", Cell.s "y"]]⟩ : DataFrame).cols) ∧
      limpiar_dataframe ⟨["a", "scientificName"], [[Cell.s "x", Cell.s "y"]]⟩
          "a" "scientificName"
        = Except.error LimpiarError.nonSeriesSelection :=
  ⟨by decide, rfl⟩

/-- C2 (amended): for every well-formed table and species column present in
it such that the rename leaves at most one canonical column (the table does
not already hold the canonical name as a second column), normalization
succeeds and the canonical column of the result contains only non-empty,
trimmed, lower-cased string values, pairwise distinct; the surviving rows
are a subsequence of the normalized rows in original order, and the column
value list equals the spec-side first-occurrence filter. -/
theorem limpiar_canonical_column_clean (df : DataFrame) (c canon : String)
    (hWF : df.WF) (hc : c ∈ df.cols)
    (hunique : (renameCols c canon df.cols).count canon ≤ 1) :
    ∃ out, limpiar_dataframe df c canon = Except.ok out ∧
      (∀ v ∈ colVals out canon, ∃ w, v = Cell.s w ∧ w ≠ "" ∧ pyStrip w = w ∧ pyLower w = w) ∧
      (colVals out canon).Nodup ∧
      out.rows.Sublist (preDedupRows ((renameCols c canon df.cols).indexOf canon) df.rows) ∧
      colVals out canon = firstOccurrences
        ((preDedupRows ((renameCols c canon df.cols).indexOf canon) df.rows).map
          (fun r => r.getD ((renameCols c canon df.cols).indexOf canon) Cell.na)) := by
  have hok : limpiar_dataframe df c canon = Except.ok
      ⟨renameCols c canon df.cols,
        dedupBy (fun r => r.getD ((renameCols c canon df.cols).indexOf canon) Cell.na)
          (preDedupRows ((renameCols c canon df.cols).indexOf canon) df.rows)⟩ :=
    (limpiar_ok_iff df c canon _).mpr ⟨hc, hunique, rfl⟩
  have hlen : ∀ r ∈ df.rows, (renameCols c canon df.cols).indexOf canon < r.length := by
    intro r hr
    have h1 : (renameCols c canon df.cols).indexOf canon < (renameCols c canon df.cols).length :=
      List.indexOf_lt_length.mpr (mem_renameCols_of_mem c canon df.cols hc)
    rw [renameCols_length] at h1
    rw [hWF r hr]
    exact h1
  refine ⟨_, hok, ?_, ?_, ?_, ?_⟩
  · intro v hv
    simp only [colVals] at hv
    obtain ⟨r, hr, rfl⟩ := List.mem_map.mp hv
    exact preDedupRows_val _ df.rows hlen r ((dedupBy_sublist _ _).subset hr)
  · exact dedupBy_keys_nodup _ _
  · exact dedupBy_sublist _ _
  · exact dedupBy_map_key_firstOccurrences _ _

/-- C2 (witness): the amended theorem applied to `dfEjemplo1`. -/
theorem limpiar_canonical_column_clean_witness :
    dfEjemplo1.WF ∧ "Especie" ∈ dfEjemplo1.cols ∧
      (renameCols "Especie" "scientificName" dfEjemplo1.cols).count "scientificName" ≤ 1 ∧
      (∃ out, limpiar_dataframe dfEjemplo1 "Especie" "scientificName" = Except.ok out ∧
        (∀ v ∈ colVals out "scientificName",
          ∃ w, v = Cell.s w ∧ w ≠ "" ∧ pyStrip w = w ∧ pyLower w = w) ∧
        (colVals out "scientificName").Nodup ∧
        out.rows.Sublist (preDedupRows
          ((renameCols "Especie" "scientificName" dfEjemplo1.cols).indexOf "scientificName")
          dfEjemplo1.rows) ∧
        colVals out "scientificName" = firstOccurrences
          ((preDedupRows
            ((renameCols "Especie" "scientificName" dfEjemplo1.cols).indexOf "scientificName")
            dfEjemplo1.rows).map
            (fun r => r.getD
              ((renameCols "Especie" "scientificName" dfEjemplo1.cols).indexOf "scientificName")
              Cell.na))) :=
  ⟨by decide, by decide, by decide,
    limpiar_canonical_column_clean dfEjemplo1 "Especie" "scientificName"
      (by decide) (by decide) (by decide)⟩

theorem map_eq_self_of {α : Type} (f : α → α) (l : List α) (h : ∀ x ∈ l, f x = x) :
    l.map f = l := by
  induction l with
  | nil => rfl
  | cons x xs ih =>
    simp only [List.map_cons]
    rw [h x (List.mem_cons_self x xs), ih (fun a ha => h a (List.mem_cons_of_mem x ha))]

theorem renameCols_self (c : String) (cols : List String) : renameCols c c cols = cols := by
  unfold renameCols
  apply map_eq_self_of
  intro x _
  by_cases hx : x = c
  · rw [if_pos hx, hx]
  · rw [if_neg hx]

theorem preDedupRows_shape (idx : Nat) (rows : List (List Cell)) :
    ∀ r ∈ preDedupRows idx rows, ∃ r0 ∈ rows,
      r = lowerStep idx (stripStep idx r0) ∧ keepStep idx (stripStep idx r0) = true := by
  intro r hr
  unfold preDedupRows at hr
  obtain ⟨r1, hr1, rfl⟩ := List.mem_map.mp hr
  have hr1' := List.mem_filter.mp hr1
  obtain ⟨r0, hr0, rfl⟩ := List.mem_map.mp hr1'.1
  exact ⟨r0, hr0, rfl, hr1'.2⟩

theorem preDedupRows_fixed (idx : Nat) (rows : List (List Cell)) :
    ∀ r ∈ preDedupRows idx rows,
      stripStep idx r = r ∧ keepStep idx r = true ∧ lowerStep idx r = r := by
  intro r hr
  obtain ⟨r0, hr0, hre, hkeep⟩ := preDedupRows_shape idx rows r hr
  by_cases hl : idx < r0.length
  · have hv1 : (stripStep idx r0).getD idx Cell.na
        = Cell.s (pyStrip (cellToStr (r0.getD idx Cell.na))) := getD_set_self _ _ _ _ hl
    have hl1 : idx < (stripStep idx r0).length := by
      rw [stripStep, List.length_set]
      exact hl
    have hv2 : r.getD idx Cell.na
        = Cell.s (pyLower (pyStrip (cellToStr (r0.getD idx Cell.na)))) := by
      rw [hre]
      unfold lowerStep
      rw [hv1]
      exact getD_set_self _ _ _ _ hl1
    have hne : pyStrip (cellToStr (r0.getD idx Cell.na)) ≠ "" := by
      intro h0
      unfold keepStep at hkeep
      rw [hv1, h0] at hkeep
      simp at hkeep
    have hws : pyStrip (pyLower (pyStrip (cellToStr (r0.getD idx Cell.na))))
        = pyLower (pyStrip (cellToStr (r0.getD idx Cell.na))) := by
      rw [pyStrip_pyLower, pyStrip_idem]
    have hwl : pyLower (pyLower (pyStrip (cellToStr (r0.getD idx Cell.na))))
        = pyLower (pyStrip (cellToStr (r0.getD idx Cell.na))) := pyLower_idem _
    have hwne : pyLower (pyStrip (cellToStr (r0.getD idx Cell.na))) ≠ "" :=
      pyLower_ne_empty hne
    refine ⟨?_, ?_, ?_⟩
    · unfold stripStep
      rw [hv2]
      show r.set idx (Cell.s (pyStrip (pyLower (pyStrip (cellToStr (r0.getD idx Cell.na)))))) = r
      rw [hws]
      conv_lhs => rw [← hv2]
      exact set_getD_eq_self r idx Cell.na
    · unfold keepStep
      rw [hv2]
      refine decide_eq_true ?_
      intro he
      exact hwne (by injection he)
    · unfold lowerStep
      rw [hv2]
      show r.set idx (Cell.s (pyLower (pyLower (pyStrip (cellToStr (r0.getD idx Cell.na)))))) = r
      rw [hwl]
      conv_lhs => rw [← hv2]
      exact set_getD_eq_self r idx Cell.na
  · have hlen0 : r0.length ≤ idx := Nat.not_lt.mp hl
    have hs0 : stripStep idx r0 = r0 := by
      unfold stripStep
      exact List.set_eq_of_length_le hlen0
    have hre' : r = r0 := by
      rw [hre, hs0]
      unfold lowerStep
      exact List.set_eq_of_length_le hlen0
    subst hre'
    have hv : r.getD idx Cell.na = Cell.na := List.getD_eq_default _ _ hlen0
    refine ⟨?_, ?_, ?_⟩
    · unfold stripStep
      exact List.set_eq_of_length_le hlen0
    · unfold keepStep
      rw [hv]
      simp
    · unfold lowerStep
      rw [hv]
      exact List.set_eq_of_length_le hlen0

/-- C5: `limpiar_dataframe` is idempotent — re-normalizing one of its
outputs, with the canonical name as both the source and target column,
returns the same table. -/
theorem limpiar_idempotent (df : DataFrame) (c canon : String) (out : DataFrame)
    (hok : limpiar_dataframe df c canon = Except.ok out) :
    limpiar_dataframe out canon canon = Except.ok out := by
  obtain ⟨hc, hcount, hout⟩ := (limpiar_ok_iff df c canon out).mp hok
  have hcols : out.cols = renameCols c canon df.cols := by rw [hout]
  have hrows : out.rows = dedupBy
      (fun r => r.getD ((renameCols c canon df.cols).indexOf canon) Cell.na)
      (preDedupRows ((renameCols c canon df.cols).indexOf canon) df.rows) := by rw [hout]
  have hcanon_mem : canon ∈ out.cols := by
    rw [hcols]
    exact mem_renameCols_of_mem c canon df.cols hc
  have hrn : renameCols canon canon out.cols = out.cols := renameCols_self canon out.cols
  apply (limpiar_ok_iff out canon canon out).mpr
  refine ⟨hcanon_mem, ?_, ?_⟩
  · rw [hrn, hcols]
    exact hcount
  · rw [hrn]
    have hidx : out.cols.indexOf canon = (renameCols c canon df.cols).indexOf canon := by
      rw [hcols]
    rw [hidx]
    have hmem : ∀ r ∈ out.rows,
        r ∈ preDedupRows ((renameCols c canon df.cols).indexOf canon) df.rows := by
      intro r hr
      rw [hrows] at hr
      exact (dedupBy_sublist _ _).subset hr
    have hfix : ∀ r ∈ out.rows,
        stripStep ((renameCols c canon df.cols).indexOf canon) r = r ∧
        keepStep ((renameCols c canon df.cols).indexOf canon) r = true ∧
        lowerStep ((renameCols c canon df.cols).indexOf canon) r = r :=
      fun r hr => preDedupRows_fixed _ df.rows r (hmem r hr)
    have hpre : preDedupRows ((renameCols c canon df.cols).indexOf canon) out.rows
        = out.rows := by
      unfold preDedupRows
      rw [map_eq_self_of _ _ (fun r hr => (hfix r hr).1),
          List.filter_eq_self.mpr (fun r hr => (hfix r hr).2.1),
          map_eq_self_of _ _ (fun r hr => (hfix r hr).2.2)]
    rw [hpre]
    have hnd : (out.rows.map
        (fun r => r.getD ((renameCols c canon df.cols).indexOf canon) Cell.na)).Nodup := by
      rw [hrows]
      exact dedupBy_keys_nodup _ _
    rw [dedupBy_eq_self _ _ hnd]

/-- C5 (witness): normalizing `dfEjemplo1` and re-normalizing the result
returns the result unchanged. -/
theorem limpiar_idempotent_witness :
    limpiar_dataframe dfEjemplo1 "Especie" "scientificName" = Except.ok outEjemplo1 ∧
      limpiar_dataframe outEjemplo1 "scientificName" "scientificName"
        = Except.ok outEjemplo1 := by
  have hok : limpiar_dataframe dfEjemplo1 "Especie" "scientificName" = Except.ok outEjemplo1 :=
    (limpiar_ok_iff dfEjemplo1 "Especie" "scientificName" outEjemplo1).mpr
      ⟨by decide, by decide, by decide⟩
  exact ⟨hok, limpiar_idempotent dfEjemplo1 "Especie" "scientificName" outEjemplo1 hok⟩

theorem mem_dedupBy_id {α : Type} [DecidableEq α] (l : List α) (a : α) (ha : a ∈ l) :
    a ∈ dedupBy id l := by
  have h := dedupBy_keys_complete id l a ha
  simpa using h

/-- C9: a missing (NaN) species value is coerced by `astype(str)` to the
literal non-empty string `"nan"` before the empty filter, so its row
survives filtering, `"nan"` appears exactly once as a canonical species
value of the normalized table, and it enters the source's species set,
able to match across sources like any other species string. -/
theorem limpiar_nan_becomes_species (df : DataFrame) (c canon : String) (out : DataFrame)
    (hWF : df.WF) (hok : limpiar_dataframe df c canon = Except.ok out)
    (hna : ∃ r ∈ df.rows, r.getD (df.cols.indexOf c) Cell.na = Cell.na) :
    Cell.s "nan" ∈ colVals out canon ∧
      (colVals out canon).count (Cell.s "nan") = 1 ∧
      Cell.s "nan" ∈ speciesSetOf canon out := by
  obtain ⟨hc, hcount, hout⟩ := (limpiar_ok_iff df c canon out).mp hok
  obtain ⟨r0, hr0, hval⟩ := hna
  have hcols : out.cols = renameCols c canon df.cols := by rw [hout]
  have hrows : out.rows = dedupBy
      (fun r => r.getD ((renameCols c canon df.cols).indexOf canon) Cell.na)
      (preDedupRows ((renameCols c canon df.cols).indexOf canon) df.rows) := by rw [hout]
  have hjc : (renameCols c canon df.cols).indexOf canon = df.cols.indexOf c :=
    renameCols_indexOf_eq c canon df.cols hc hcount
  have hjlt : (renameCols c canon df.cols).indexOf canon < r0.length := by
    have h1 : (renameCols c canon df.cols).indexOf canon < (renameCols c canon df.cols).length :=
      List.indexOf_lt_length.mpr (mem_renameCols_of_mem c canon df.cols hc)
    rw [renameCols_length] at h1
    rw [hWF r0 hr0]
    exact h1
  have hv0 : r0.getD ((renameCols c canon df.cols).indexOf canon) Cell.na = Cell.na := by
    rw [hjc]
    exact hval
  have hv1 : (stripStep ((renameCols c canon df.cols).indexOf canon) r0).getD
      ((renameCols c canon df.cols).indexOf canon) Cell.na = Cell.s "nan" := by
    unfold stripStep
    rw [getD_set_self _ _ _ _ hjlt, hv0]
    decide
  have hjlt1 : (renameCols c canon df.cols).indexOf canon
      < (stripStep ((renameCols c canon df.cols).indexOf canon) r0).length := by
    rw [stripStep, List.length_set]
    exact hjlt
  have hkeep1 : keepStep ((renameCols c canon df.cols).indexOf canon)
      (stripStep ((renameCols c canon df.cols).indexOf canon) r0) = true := by
    unfold keepStep
    rw [hv1]
    simp
  have hmem3 : lowerStep ((renameCols c canon df.cols).indexOf canon)
      (stripStep ((renameCols c canon df.cols).indexOf canon) r0)
      ∈ preDedupRows ((renameCols c canon df.cols).indexOf canon) df.rows := by
    unfold preDedupRows
    exact List.mem_map_of_mem _
      (List.mem_filter.mpr ⟨List.mem_map_of_mem _ hr0, hkeep1⟩)
  have hv2 : (lowerStep ((renameCols c canon df.cols).indexOf canon)
      (stripStep ((renameCols c canon df.cols).indexOf canon) r0)).getD
      ((renameCols c canon df.cols).indexOf canon) Cell.na = Cell.s "nan" := by
    unfold lowerStep
    rw [hv1, getD_set_self _ _ _ _ hjlt1]
    decide
  have hkeymem : Cell.s "nan" ∈ (dedupBy
      (fun r => r.getD ((renameCols c canon df.cols).indexOf canon) Cell.na)
      (preDedupRows ((renameCols c canon df.cols).indexOf canon) df.rows)).map
      (fun r => r.getD ((renameCols c canon df.cols).indexOf canon) Cell.na) := by
    have h := dedupBy_keys_complete
      (fun r => r.getD ((renameCols c canon df.cols).indexOf canon) Cell.na)
      (preDedupRows ((renameCols c canon df.cols).indexOf canon) df.rows) _ hmem3
    have h2 : (lowerStep ((renameCols c canon df.cols).indexOf canon)
          (stripStep ((renameCols c canon df.cols).indexOf canon) r0)).getD
          ((renameCols c canon df.cols).indexOf canon) Cell.na
        ∈ (dedupBy (fun r => r.getD ((renameCols c canon df.cols).indexOf canon) Cell.na)
            (preDedupRows ((renameCols c canon df.cols).indexOf canon) df.rows)).map
          (fun r => r.getD ((renameCols c canon df.cols).indexOf canon) Cell.na) := h
    rw [hv2] at h2
    exact h2
  have hcv : colVals out canon = (dedupBy
      (fun r => r.getD ((renameCols c canon df.cols).indexOf canon) Cell.na)
      (preDedupRows ((renameCols c canon df.cols).indexOf canon) df.rows)).map
      (fun r => r.getD ((renameCols c canon df.cols).indexOf canon) Cell.na) := by
    unfold colVals
    rw [hcols, hrows]
  refine ⟨?_, ?_, ?_⟩
  · rw [hcv]
    exact hkeymem
  · rw [hcv]
    exact List.count_eq_one_of_mem (dedupBy_keys_nodup _ _) hkeymem
  · unfold speciesSetOf
    apply mem_dedupBy_id
    apply List.mem_filter.mpr
    refine ⟨by rw [hcv]; exact hkeymem, by simp⟩

/-- C9 (witness): the theorem applied to `dfEjemplo1`, whose last row has a
missing species value; the normalized table `outEjemplo1` carries the
species `"nan"`. -/
theorem limpiar_nan_becomes_species_witness :
    dfEjemplo1.WF ∧
      limpiar_dataframe dfEjemplo1 "Especie" "scientificName" = Except.ok outEjemplo1 ∧
      (∃ r ∈ dfEjemplo1.rows, r.getD (dfEjemplo1.cols.indexOf "Especie") Cell.na = Cell.na) ∧
      (Cell.s "nan" ∈ colVals outEjemplo1 "scientificName" ∧
        (colVals outEjemplo1 "scientificName").count (Cell.s "nan") = 1 ∧
        Cell.s "nan" ∈ speciesSetOf "scientificName" outEjemplo1) := by
  have hok : limpiar_dataframe dfEjemplo1 "Especie" "scientificName" = Except.ok outEjemplo1 :=
    (limpiar_ok_iff dfEjemplo1 "Especie" "scientificName" outEjemplo1).mpr
      ⟨by decide, by decide, by decide⟩
  exact ⟨by decide, hok, by decide,
    limpiar_nan_becomes_species dfEjemplo1 "Especie" "scientificName" outEjemplo1
      (by decide) hok (by decide)⟩

theorem lexLe_total (a b : List Char) : lexLe a b = true ∨ lexLe b a = true := by
  induction a generalizing b with
  | nil => left; rfl
  | cons x xs ih =>
    cases b with
    | nil => right; rfl
    | cons y ys =>
      by_cases hxy : x = y
      · subst hxy
        simp only [lexLe, if_pos rfl]
        exact ih ys
      · rcases lt_trichotomy x y with h | h | h
        · left
          simp only [lexLe, if_neg hxy]
          exact decide_eq_true h
        · exact absurd h hxy
        · right
          have hyx : ¬ y = x := fun he => hxy (Eq.symm he)
          simp only [lexLe, if_neg hyx]
          exact decide_eq_true h

theorem lexLe_trans (a b c : List Char) (h1 : lexLe a b = true) (h2 : lexLe b c = true) :
    lexLe a c = true := by
  induction a generalizing b c with
  | nil => rfl
  | cons x xs ih =>
    cases b with
    | nil => cases h1
    | cons y ys =>
      cases c with
      | nil => cases h2
      | cons z zs =>
        by_cases hxy : x = y <;> by_cases hyz : y = z
        · subst hxy; subst hyz
          simp only [lexLe, if_pos rfl] at h1 h2 ⊢
          exact ih ys zs h1 h2
        · subst hxy
          simp only [lexLe, if_neg hyz] at h2 ⊢
          exact h2
        · subst hyz
          simp only [lexLe, if_neg hxy] at h1 ⊢
          exact h1
        · simp only [lexLe, if_neg hxy] at h1
          simp only [lexLe, if_neg hyz] at h2
          have hx : x < y := of_decide_eq_true h1
          have hy : y < z := of_decide_eq_true h2
          have hxz : x < z := lt_trans hx hy
          simp only [lexLe, if_neg (ne_of_lt hxz)]
          exact decide_eq_true hxz

theorem cellLe_total (a b : Cell) : cellLe a b = true ∨ cellLe b a = true := by
  cases a with
  | na => left; rfl
  | s x =>
    cases b with
    | na => right; rfl
    | s y => simpa [cellLe] using lexLe_total x.data y.data
    | n k => right; rfl
  | n j =>
    cases b with
    | na => right; rfl
    | s y => left; rfl
    | n k => simpa [cellLe] using Nat.le_total j k

theorem cellLe_trans (a b c : Cell) (h1 : cellLe a b = true) (h2 : cellLe b c = true) :
    cellLe a c = true := by
  cases a with
  | na => rfl
  | s x =>
    cases b with
    | na => cases h1
    | n k => cases h1
    | s y =>
      cases c with
      | na => cases h2
      | n k => cases h2
      | s z => exact lexLe_trans x.data y.data z.data h1 h2
  | n j =>
    cases b with
    | na => cases h1
    | s y =>
      cases c with
      | na => cases h2
      | s z => rfl
      | n k => cases h2
    | n k =>
      cases c with
      | na => cases h2
      | s z => rfl
      | n m =>
        exact decide_eq_true (Nat.le_trans (of_decide_eq_true h1) (of_decide_eq_true h2))

theorem interRel_total (a b : List Cell) : interRel a b ∨ interRel b a := by
  rcases Nat.lt_trichotomy (rowNum a) (rowNum b) with h | h | h
  · right; left; exact h
  · rcases cellLe_total (rowSpecies a) (rowSpecies b) with hc | hc
    · left; right; exact ⟨h, hc⟩
    · right; right; exact ⟨h.symm, hc⟩
  · left; left; exact h

theorem interRel_trans (a b c : List Cell) (h1 : interRel a b) (h2 : interRel b c) :
    interRel a c := by
  rcases h1 with h1 | ⟨h1e, h1s⟩
  · rcases h2 with h2 | ⟨h2e, h2s⟩
    · left; omega
    · left; omega
  · rcases h2 with h2 | ⟨h2e, h2s⟩
    · left; omega
    · right; exact ⟨h1e.trans h2e, cellLe_trans _ _ _ h1s h2s⟩

theorem sum_map_ite_eq_countP {α : Type} (p : α → Bool) (l : List α) :
    (l.map (fun x => if p x then 1 else 0)).sum = (l.filter p).length := by
  induction l with
  | nil => rfl
  | cons x xs ih =>
    simp only [List.map_cons, List.sum_cons, List.filter_cons]
    by_cases h : p x = true
    · simp [h, ih]
      omega
    · simp [h, ih]

theorem numFuentesOf_eq_sourceCount (sets : List (String × List Cell)) (e : Cell) :
    numFuentesOf sets e = sourceCount sets e := by
  unfold numFuentesOf presencia sourceCount
  rw [List.map_map]
  exact sum_map_ite_eq_countP (fun p => decide (e ∈ p.2)) sets

theorem filaOf_rowSpecies (sets : List (String × List Cell)) (e : Cell) :
    rowSpecies (filaOf sets e) = e := rfl

theorem filaOf_rowNum (sets : List (String × List Cell)) (e : Cell) :
    rowNum (filaOf sets e) = numFuentesOf sets e := rfl

theorem filaOf_indicator_sum (sets : List (String × List Cell)) (e : Cell) :
    (((filaOf sets e).drop 2).map cellNat).sum = numFuentesOf sets e := by
  show (((presencia sets e).map (fun q => Cell.n (if q.2 then 1 else 0))).map cellNat).sum
      = numFuentesOf sets e
  rw [List.map_map]
  rfl

theorem mem_filasOf (sets : List (String × List Cell)) (r : List Cell) :
    r ∈ filasOf sets ↔
      ∃ e ∈ dedupBy id (sets.flatMap (fun p => p.2)),
        2 ≤ numFuentesOf sets e ∧ r = filaOf sets e := by
  unfold filasOf
  rw [List.mem_filterMap]
  constructor
  · rintro ⟨e, he, hsome⟩
    split at hsome
    · injection hsome with h
      exact ⟨e, he, by assumption, h.symm⟩
    · cases hsome
  · rintro ⟨e, he, h2, rfl⟩
    exact ⟨e, he, by rw [if_pos h2]⟩

theorem construir_rows_mem (fuentes : List (String × DataFrame)) (canon : String)
    (hne : fuentes ≠ []) (r : List Cell)
    (hr : r ∈ (construir_interseccion fuentes canon).2.rows) :
    r ∈ filasOf (fuentes.map (fun p => (p.1, speciesSetOf canon p.2))) := by
  have hemp : fuentes.isEmpty = false := by
    cases fuentes
    · exact absurd rfl hne
    · rfl
  unfold construir_interseccion at hr
  rw [hemp] at hr
  simp only [Bool.false_eq_true, if_false] at hr
  split at hr
  · cases hr
  · exact ((List.perm_insertionSort interRel _).mem_iff).mp hr

theorem construir_fst (fuentes : List (String × DataFrame)) (canon : String) :
    (construir_interseccion fuentes canon).1
      = fuentes.map (fun p => (p.1, speciesSetOf canon p.2)) := by
  unfold construir_interseccion
  split
  · rfl
  · split <;> rfl

/-- C1: every row of the intersection table has its `num_fuentes` cell
(position 1, the `source_count` column) equal to the sum of its per-source
0/1 indicator cells (positions 2 onward), equal to the number of input
sources whose species set contains the row's species, and at least 2; and
no row carries a species present in fewer than two sources. -/
theorem construir_source_count (fuentes : List (String × DataFrame)) (canon : String)
    (hne : fuentes ≠ []) (hnames : (fuentes.map Prod.fst).Nodup)
    (hnc : canon ≠ "num_fuentes" ∧
      ∀ nm ∈ fuentes.map Prod.fst, nm ≠ canon ∧ nm ≠ "num_fuentes") :
    ∀ r ∈ (construir_interseccion fuentes canon).2.rows,
      (rowNum r = ((r.drop 2).map cellNat).sum ∧
        rowNum r = sourceCount (construir_interseccion fuentes canon).1 (rowSpecies r) ∧
        2 ≤ rowNum r) ∧
      ∀ e, sourceCount (construir_interseccion fuentes canon).1 e < 2 →
        rowSpecies r ≠ e := by
  intro r hr
  have hmem := construir_rows_mem fuentes canon hne r hr
  obtain ⟨e, he, h2, rfl⟩ := (mem_filasOf _ r).mp hmem
  rw [construir_fst]
  refine ⟨⟨?_, ?_, ?_⟩, ?_⟩
  · rw [filaOf_rowNum, filaOf_indicator_sum]
  · rw [filaOf_rowNum, filaOf_rowSpecies, numFuentesOf_eq_sourceCount]
  · rw [filaOf_rowNum]
    exact h2
  · intro e' hlt heq
    rw [filaOf_rowSpecies] at heq
    subst heq
    rw [numFuentesOf_eq_sourceCount] at h2
    omega

/-- C1 (witness): two sources sharing one species. -/
theorem construir_source_count_witness :
    ([("A", dfFuenteA), ("B", dfFuenteB)] : List (String × DataFrame)) ≠ [] ∧
      (([("A", dfFuenteA), ("B", dfFuenteB)].map Prod.fst).Nodup) ∧
      ("scientificName" ≠ "num_fuentes" ∧
        ∀ nm ∈ [("A", dfFuenteA), ("B", dfFuenteB)].map Prod.fst,
          nm ≠ "scientificName" ∧ nm ≠ "num_fuentes") ∧
      ∀ r ∈ (construir_interseccion [("A", dfFuenteA), ("B", dfFuenteB)]
          "scientificName").2.rows,
        (rowNum r = ((r.drop 2).map cellNat).sum ∧
          rowNum r = sourceCount (construir_interseccion [("A", dfFuenteA), ("B", dfFuenteB)]
            "scientificName").1 (rowSpecies r) ∧
          2 ≤ rowNum r) ∧
        ∀ e, sourceCount (construir_interseccion [("A", dfFuenteA), ("B", dfFuenteB)]
            "scientificName").1 e < 2 →
          rowSpecies r ≠ e :=
  ⟨by decide, by decide, by decide,
    construir_source_count [("A", dfFuenteA), ("B", dfFuenteB)] "scientificName"
      (by decide) (by decide) (by decide)⟩

/-- C3: in the intersection table, any two adjacent rows satisfy: the first
has strictly greater `num_fuentes`, or they are equal and the first row's
canonical species value is at most the second's in the code-point
lexicographic order. -/
theorem construir_sorted (fuentes : List (String × DataFrame)) (canon : String)
    (hne : fuentes ≠ []) (hnames : (fuentes.map Prod.fst).Nodup)
    (hnc : canon ≠ "num_fuentes" ∧
      ∀ nm ∈ fuentes.map Prod.fst, nm ≠ canon ∧ nm ≠ "num_fuentes") :
    (construir_interseccion fuentes canon).2.rows.Chain'
      (fun r1 r2 => rowNum r2 < rowNum r1 ∨
        (rowNum r1 = rowNum r2 ∧ cellLe (rowSpecies r1) (rowSpecies r2) = true)) := by
  have hemp : fuentes.isEmpty = false := by
    cases fuentes
    · exact absurd rfl hne
    · rfl
  unfold construir_interseccion
  rw [hemp]
  simp only [Bool.false_eq_true, if_false]
  split
  · exact List.chain'_nil
  · have hsorted : List.Sorted interRel
        (List.insertionSort interRel
          (filasOf (fuentes.map (fun p => (p.1, speciesSetOf canon p.2))))) :=
      @List.sorted_insertionSort _ interRel _ ⟨interRel_total⟩ ⟨interRel_trans⟩ _
    exact List.Pairwise.chain' hsorted

/-- C3 (witness): the sorting theorem applied to three sources with several
matched species. -/
theorem construir_sorted_witness :
    ([("A", dfFuenteA), ("B", dfFuenteB), ("X", dfFuenteX)] : List (String × DataFrame)) ≠ [] ∧
      (([("A", dfFuenteA), ("B", dfFuenteB), ("X", dfFuenteX)].map Prod.fst).Nodup) ∧
      ("scientificName" ≠ "num_fuentes" ∧
        ∀ nm ∈ [("A", dfFuenteA), ("B", dfFuenteB), ("X", dfFuenteX)].map Prod.fst,
          nm ≠ "scientificName" ∧ nm ≠ "num_fuentes") ∧
      (construir_interseccion [("A", dfFuenteA), ("B", dfFuenteB), ("X", dfFuenteX)]
          "scientificName").2.rows.Chain'
        (fun r1 r2 => rowNum r2 < rowNum r1 ∨
          (rowNum r1 = rowNum r2 ∧ cellLe (rowSpecies r1) (rowSpecies r2) = true)) :=
  ⟨by decide, by decide, by decide,
    construir_sorted [("A", dfFuenteA), ("B", dfFuenteB), ("X", dfFuenteX)] "scientificName"
      (by decide) (by decide) (by decide)⟩

/-- C10: for a non-empty source mapping in which no species occurs in two
or more sources, `construir_interseccion` returns the per-source species
sets together with an intersection table with zero rows and zero columns
(`pd.DataFrame` of an empty row list defines no columns), while the
empty-mapping case returns an empty table that does carry the canonical
column. -/
theorem construir_no_match_empty (fuentes : List (String × DataFrame)) (canon : String)
    (hne : fuentes ≠ [])
    (hlow : ∀ e ∈ (fuentes.map (fun p => (p.1, speciesSetOf canon p.2))).flatMap
        (fun p => p.2),
      sourceCount (fuentes.map (fun p => (p.1, speciesSetOf canon p.2))) e < 2) :
    (construir_interseccion fuentes canon).2 = ⟨[], []⟩ ∧
      (construir_interseccion fuentes canon).1
        = fuentes.map (fun p => (p.1, speciesSetOf canon p.2)) ∧
      (construir_interseccion [] canon).2 = ⟨[canon], []⟩ := by
  have hemp : fuentes.isEmpty = false := by
    cases fuentes
    · exact absurd rfl hne
    · rfl
  have hfilas : filasOf (fuentes.map (fun p => (p.1, speciesSetOf canon p.2))) = [] := by
    unfold filasOf
    apply List.filterMap_eq_nil_iff.mpr
    intro e he
    have hlt := hlow e ((dedupBy_sublist id _).subset he)
    rw [numFuentesOf_eq_sourceCount]
    exact if_neg (by omega)
  refine ⟨?_, construir_fst fuentes canon, rfl⟩
  unfold construir_interseccion
  rw [hemp, hfilas]
  rfl

/-- C10 (witness): two sources with disjoint species sets. -/
theorem construir_no_match_empty_witness :
    ([("B", dfFuenteB), ("C", dfFuenteC)] : List (String × DataFrame)) ≠ [] ∧
      (∀ e ∈ ([("B", dfFuenteB), ("C", dfFuenteC)].map
          (fun p => (p.1, speciesSetOf "scientificName" p.2))).flatMap (fun p => p.2),
        sourceCount ([("B", dfFuenteB), ("C", dfFuenteC)].map
          (fun p => (p.1, speciesSetOf "scientificName" p.2))) e < 2) ∧
      (construir_interseccion [("B", dfFuenteB), ("C", dfFuenteC)] "scientificName").2
        = ⟨[], []⟩ ∧
      (construir_interseccion [("B", dfFuenteB), ("C", dfFuenteC)] "scientificName").1
        = [("B", dfFuenteB), ("C", dfFuenteC)].map
            (fun p => (p.1, speciesSetOf "scientificName" p.2)) ∧
      (construir_interseccion [] "scientificName").2 = ⟨["scientificName"], []⟩ :=
  ⟨by decide, by decide,
    construir_no_match_empty [("B", dfFuenteB), ("C", dfFuenteC)] "scientificName"
      (by decide) (by decide)⟩

theorem find_eq_head_filter {α : Type} (p : α → Bool) (l : List α) :
    l.find? p = (l.filter p).head? := by
  induction l with
  | nil => rfl
  | cons x xs ih =>
    rw [List.find?_cons, List.filter_cons]
    cases h : p x
    · exact ih
    · rfl

theorem filter_key_length_le_one {α β : Type} [DecidableEq β] (key : α → β) (l : List α)
    (hnd : (l.map key).Nodup) (k : β) :
    (l.filter (fun x => key x = k)).length ≤ 1 := by
  induction l with
  | nil => simp
  | cons x xs ih =>
    simp only [List.map_cons, List.nodup_cons] at hnd
    rw [List.filter_cons]
    by_cases h : key x = k
    · have hnil : xs.filter (fun y => key y = k) = [] := by
        apply List.filter_eq_nil_iff.mpr
        intro y hy hdec
        have hyk : key y = k := of_decide_eq_true hdec
        have h2 : key y ∈ List.map key xs := List.mem_map_of_mem key hy
        rw [hyk, ← h] at h2
        exact hnd.1 h2
      rw [hnil, if_pos (decide_eq_true h)]
      simp
    · simp only [decide_eq_true_eq, h, if_false]
      exact ih hnd.2

theorem find_none_filter {α : Type} (p : α → Bool) (l : List α)
    (h : l.find? p = none) : l.filter p = [] := by
  have hh := find_eq_head_filter p l
  rw [h] at hh
  exact List.head?_eq_none_iff.mp hh.symm

theorem find_some_filter_nodup {α β : Type} [DecidableEq β] (key : α → β) (k : β)
    (l : List α) (hnd : (l.map key).Nodup) (a : α)
    (h : l.find? (fun x => key x = k) = some a) :
    l.filter (fun x => key x = k) = [a] := by
  have hh := find_eq_head_filter (fun x => key x = k) l
  rw [h] at hh
  have hle := filter_key_length_le_one key l hnd k
  cases hf : l.filter (fun x => key x = k) with
  | nil =>
    rw [hf] at hh
    cases hh
  | cons b bs =>
    rw [hf] at hh hle
    have hab : a = b := by
      have hh' := hh.symm
      injection hh' with hba
      exact hba.symm
    cases bs with
    | nil => rw [hab]
    | cons c cs => simp at hle

theorem flatMap_eq_map_of {α β : Type} (f : α → List β) (g : α → β) (l : List α)
    (h : ∀ x ∈ l, f x = [g x]) : l.flatMap f = l.map g := by
  induction l with
  | nil => rfl
  | cons x xs ih =>
    rw [List.flatMap_cons, h x (List.mem_cons_self x xs),
        ih (fun a ha => h a (List.mem_cons_of_mem x ha)), List.map_cons]
    rfl

theorem mergeLeft_two_cols (canon nn : String) (tbl : DataFrame) (dd : List (List Cell))
    (hnn : nn ≠ canon)
    (hnd : (dd.map (fun r => r.getD 0 Cell.na)).Nodup) :
    mergeLeft canon tbl ⟨[canon, nn], dd⟩ =
      ⟨tbl.cols ++ [nn],
        tbl.rows.map (fun lr => lr ++
          [match dd.find? (fun rr => rr.getD 0 Cell.na
              = lr.getD (tbl.cols.indexOf canon) Cell.na) with
           | some rr => rr.getD 1 Cell.na
           | none => Cell.na])⟩ := by
  unfold mergeLeft
  have hr2 : List.range ([canon, nn] : List String).length = [0, 1] := rfl
  simp only [hr2, List.indexOf_cons_self]
  have hkeep : List.filter
      (fun i => decide (¬([canon, nn] : List String).getD i "" = canon)) [0, 1] = [1] := by
    rw [List.filter_cons, List.filter_cons, List.filter_nil]
    rw [if_neg (by simp), if_pos (by simpa using hnn)]
  simp only [ne_eq, hkeep, List.map_cons, List.map_nil, List.getD_cons_succ, List.getD_cons_zero]
  congr 1
  apply flatMap_eq_map_of
  intro lr _
  cases hfind : dd.find? (fun rr =>
      rr.getD 0 Cell.na = lr.getD (tbl.cols.indexOf canon) Cell.na) with
  | none =>
    have hfil := find_none_filter _ dd hfind
    rw [hfil]
    rfl
  | some rr =>
    have hfil := find_some_filter_nodup (fun r => r.getD 0 Cell.na)
      (lr.getD (tbl.cols.indexOf canon) Cell.na) dd hnd rr hfind
    rw [hfil]
    rfl

theorem renameCols_extra_pair (canon extra nn : String) (hed : extra ≠ canon) :
    renameCols extra nn [canon, extra] = [canon, nn] := by
  unfold renameCols
  rw [List.map_cons, List.map_cons, List.map_nil,
      if_neg (fun he => hed he.symm), if_pos rfl]

theorem enrichOne_ok (canon : String) (tbl : DataFrame) (src extra : String)
    (srcDf : DataFrame)
    (hsc : canon ∈ srcDf.cols) (hse : extra ∈ srcDf.cols)
    (htc : canon ∈ tbl.cols) (hed : extra ≠ canon)
    (hnn : src ++ "_" ++ extra ≠ canon) :
    enrichOne canon tbl src extra srcDf = Except.ok
      ⟨tbl.cols ++ [src ++ "_" ++ extra],
        tbl.rows.map (fun lr => lr ++ [enrichCell canon (src, extra, srcDf)
          (lr.getD (tbl.cols.indexOf canon) Cell.na)])⟩ := by
  have hcols' : renameCols extra (src ++ "_" ++ extra) [canon, extra]
      = [canon, src ++ "_" ++ extra] := renameCols_extra_pair canon extra _ hed
  have hcount : (renameCols extra (src ++ "_" ++ extra) [canon, extra]).count canon = 1 := by
    rw [hcols', List.count_cons_self,
        List.count_eq_zero.mpr (by simp; exact fun he => hnn he.symm)]
  unfold enrichOne
  rw [if_pos (⟨hsc, hse⟩ : canon ∈ srcDf.cols ∧ extra ∈ srcDf.cols),
      if_pos (⟨htc, hcount⟩ : _ ∧ _), hcols']
  exact congrArg Except.ok
    (mergeLeft_two_cols canon (src ++ "_" ++ extra) tbl
      (dedupBy (fun r => r.getD 0 Cell.na) (seleccionExtra canon extra srcDf).rows)
      hnn (dedupBy_keys_nodup _ _))

theorem getD_map_lt {α β : Type} (f : α → β) (l : List α) (i : Nat) (d : α) (d' : β)
    (h : i < l.length) : (l.map f).getD i d' = f (l.getD i d) := by
  rw [List.getD_eq_getElem?_getD, List.getElem?_map, List.getD_eq_getElem?_getD,
      List.getElem?_eq_getElem h]
  rfl

theorem getD_mem_of_lt {α : Type} (l : List α) (i : Nat) (d : α) (h : i < l.length) :
    l.getD i d ∈ l := by
  rw [List.getD_eq_getElem?_getD, List.getElem?_eq_getElem h]
  exact List.getElem_mem h

theorem tabla_final_cons (canon : String) (inter : DataFrame)
    (p : String × String × DataFrame) (ps : List (String × String × DataFrame)) :
    tabla_final canon inter (p :: ps) =
      (enrichOne canon inter p.1 p.2.1 p.2.2) >>= fun acc => tabla_final canon acc ps := rfl

theorem tabla_final_spec (canon : String) (pares : List (String × String × DataFrame)) :
    ∀ inter : DataFrame, inter.WF → canon ∈ inter.cols →
      (pares.map nuevoNombreCol).Nodup →
      (∀ p ∈ pares, nuevoNombreCol p ∉ inter.cols ∧
        canon ∈ p.2.2.cols ∧ p.2.1 ∈ p.2.2.cols ∧ p.2.1 ≠ canon) →
      ∃ T, tabla_final canon inter pares = Except.ok T ∧
        T.cols = inter.cols ++ pares.map nuevoNombreCol ∧
        T.rows.length = inter.rows.length ∧
        (∀ i, i < inter.rows.length →
          T.rows.getD i [] = inter.rows.getD i [] ++ pares.map (fun p =>
            enrichCell canon p
              ((inter.rows.getD i []).getD (inter.cols.indexOf canon) Cell.na))) ∧
        T.WF := by
  induction pares with
  | nil =>
    intro inter hWF hcanon _ _
    refine ⟨inter, rfl, by simp, rfl, ?_, hWF⟩
    intro i _
    simp
  | cons p ps ih =>
    obtain ⟨src, extra, srcDf⟩ := p
    intro inter hWF hcanon hnod hps
    have hp := hps (src, extra, srcDf) (List.mem_cons_self _ ps)
    simp only [List.map_cons, List.nodup_cons] at hnod
    have hnn : nuevoNombreCol (src, extra, srcDf) ≠ canon := fun he => hp.1 (he ▸ hcanon)
    have hstep := enrichOne_ok canon inter src extra srcDf hp.2.1 hp.2.2.1 hcanon hp.2.2.2 hnn
    have hidxC : inter.cols.indexOf canon < inter.cols.length :=
      List.indexOf_lt_length.mpr hcanon
    rw [tabla_final_cons, hstep]
    have hbind : ((Except.ok (⟨inter.cols ++ [src ++ "_" ++ extra],
        inter.rows.map (fun lr => lr ++ [enrichCell canon (src, extra, srcDf)
          (lr.getD (inter.cols.indexOf canon) Cell.na)])⟩ : DataFrame)
          : Except Unit DataFrame) >>= fun acc => tabla_final canon acc ps)
        = tabla_final canon ⟨inter.cols ++ [src ++ "_" ++ extra],
            inter.rows.map (fun lr => lr ++ [enrichCell canon (src, extra, srcDf)
              (lr.getD (inter.cols.indexOf canon) Cell.na)])⟩ ps := rfl
    rw [hbind]
    have hWF1 : (⟨inter.cols ++ [src ++ "_" ++ extra],
        inter.rows.map (fun lr => lr ++ [enrichCell canon (src, extra, srcDf)
          (lr.getD (inter.cols.indexOf canon) Cell.na)])⟩ : DataFrame).WF := by
      intro r hr
      obtain ⟨lr, hlr, rfl⟩ := List.mem_map.mp hr
      show (lr ++ [_]).length = (inter.cols ++ [src ++ "_" ++ extra]).length
      rw [List.length_append, List.length_append, hWF lr hlr]
      rfl
    have hcanon1 : canon ∈ (inter.cols ++ [src ++ "_" ++ extra]) :=
      List.mem_append_left _ hcanon
    have hps1 : ∀ q ∈ ps, nuevoNombreCol q ∉ (inter.cols ++ [src ++ "_" ++ extra]) ∧
        canon ∈ q.2.2.cols ∧ q.2.1 ∈ q.2.2.cols ∧ q.2.1 ≠ canon := by
      intro q hq
      have hq' := hps q (List.mem_cons_of_mem _ hq)
      refine ⟨?_, hq'.2⟩
      intro hmem
      rcases List.mem_append.mp hmem with hm | hm
      · exact hq'.1 hm
      · have heqn : nuevoNombreCol q = src ++ "_" ++ extra := List.mem_singleton.mp hm
        have hmm : nuevoNombreCol q ∈ List.map nuevoNombreCol ps :=
          List.mem_map_of_mem nuevoNombreCol hq
        rw [heqn] at hmm
        exact hnod.1 hmm
    obtain ⟨T, hT, hcols, hlen, hrows, hWFT⟩ :=
      ih ⟨inter.cols ++ [src ++ "_" ++ extra],
        inter.rows.map (fun lr => lr ++ [enrichCell canon (src, extra, srcDf)
          (lr.getD (inter.cols.indexOf canon) Cell.na)])⟩ hWF1 hcanon1 hnod.2 hps1
    refine ⟨T, hT, ?_, ?_, ?_, hWFT⟩
    · rw [hcols]
      simp only [List.map_cons, List.append_assoc, List.singleton_append]
      rfl
    · rw [hlen]
      show (inter.rows.map _).length = inter.rows.length
      rw [List.length_map]
    · intro i hi
      have hi1 : i < (inter.rows.map (fun lr => lr ++ [enrichCell canon (src, extra, srcDf)
          (lr.getD (inter.cols.indexOf canon) Cell.na)])).length := by
        rw [List.length_map]
        exact hi
      have hrow1 : (inter.rows.map (fun lr => lr ++ [enrichCell canon (src, extra, srcDf)
          (lr.getD (inter.cols.indexOf canon) Cell.na)])).getD i []
          = inter.rows.getD i [] ++ [enrichCell canon (src, extra, srcDf)
              ((inter.rows.getD i []).getD (inter.cols.indexOf canon) Cell.na)] :=
        getD_map_lt _ _ i [] [] hi
      have hkey1 : ((inter.rows.getD i [] ++ [enrichCell canon (src, extra, srcDf)
            ((inter.rows.getD i []).getD (inter.cols.indexOf canon) Cell.na)]).getD
          ((inter.cols ++ [src ++ "_" ++ extra]).indexOf canon) Cell.na)
          = (inter.rows.getD i []).getD (inter.cols.indexOf canon) Cell.na := by
        rw [List.indexOf_append_of_mem hcanon]
        apply List.getD_append
        rw [hWF (inter.rows.getD i []) (getD_mem_of_lt inter.rows i [] hi)]
        exact hidxC
      have := hrows i hi1
      rw [hrow1] at this
      rw [this, hkey1]
      simp [List.append_assoc]

theorem pares_getD_name (pares : List (String × String × DataFrame))
    (hnod : (pares.map nuevoNombreCol).Nodup)
    (p : String × String × DataFrame) (hp : p ∈ pares)
    (f : (String × String × DataFrame) → Cell) :
    (pares.map f).getD ((pares.map nuevoNombreCol).indexOf (nuevoNombreCol p)) Cell.na
      = f p := by
  induction pares with
  | nil => cases hp
  | cons q qs ih =>
    simp only [List.map_cons, List.nodup_cons] at hnod
    rcases List.mem_cons.mp hp with rfl | hp'
    · simp only [List.map_cons, List.indexOf_cons_self]
      rfl
    · have hne : nuevoNombreCol q ≠ nuevoNombreCol p := by
        intro he
        have hmm : nuevoNombreCol p ∈ List.map nuevoNombreCol qs :=
          List.mem_map_of_mem _ hp'
        rw [← he] at hmm
        exact hnod.1 hmm
      simp only [List.map_cons, List.indexOf_cons_ne _ hne, Nat.succ_eq_add_one,
        List.getD_cons_succ]
      exact ih hnod.2 hp'

theorem enrichCell_absent (canon : String) (p : String × String × DataFrame) (k : Cell)
    (hk : k ∉ colVals p.2.2 canon) : enrichCell canon p k = Cell.na := by
  unfold enrichCell
  have hfind : (dedupBy (fun r => r.getD 0 Cell.na)
      (seleccionExtra canon p.2.1 p.2.2).rows).find?
      (fun rr => rr.getD 0 Cell.na = k) = none := by
    apply List.find?_eq_none.mpr
    intro rr hrr hdec
    have hkey : rr.getD 0 Cell.na = k := of_decide_eq_true hdec
    have hrr' : rr ∈ (seleccionExtra canon p.2.1 p.2.2).rows :=
      (dedupBy_sublist _ _).subset hrr
    obtain ⟨r0, hr0, rfl⟩ := List.mem_map.mp hrr'
    apply hk
    rw [← hkey]
    exact List.mem_map_of_mem _ hr0
  rw [hfind]

/-- C4 (counterexample): the claim quantifies over every intersection table
and every family of (source, valid extra column) pairs, and fails twice.
First, when no species matched across sources the intersection table is
the zero-column empty frame (see C10) and the merge at app.py:231-235 has
no canonical key column to join on — pandas raises `KeyError` instead of
producing a final table, so the enrichment step does not preserve the
(empty) row set; the run aborts via the generic exception handler.
Second, the canonical column itself is a valid extra column (it exists in
every normalized table, so it passes the check at app.py:203-204), yet
the rename at app.py:232 then relabels the duplicated canonical label of
the projection — the merge key included — and the merge again raises
`KeyError` instead of adding a column. -/
theorem tabla_final_empty_inter_cex :
    (construir_interseccion [("B", dfFuenteB), ("C", dfFuenteC)] "scientificName").2
        = ⟨[], []⟩ ∧
      ("scientificName" ∈ dfFuenteX.cols ∧ "status" ∈ dfFuenteX.cols) ∧
      tabla_final "scientificName" ⟨[], []⟩ [("X", "status", dfFuenteX)]
        = Except.error () ∧
      tabla_final "scientificName" interEjemplo [("X", "scientificName", dfFuenteX)]
        = Except.error () :=
  ⟨by decide, ⟨by decide, by decide⟩, rfl, rfl⟩

/-- C4 (amended): for every well-formed intersection table that carries the
canonical column, and every family of (source, valid extra column) pairs
whose extra column is not the canonical column itself and whose generated
enrichment column names are pairwise distinct and do not collide with
existing columns, the enrichment fold returns a final table
with exactly the same row count, the same canonical-species cell in every
row (rows are never dropped or duplicated), and exactly the new columns
`{source}_{extra}` appended; a species absent from a given source receives
the NaN value in that source's enrichment column. -/
theorem tabla_final_frame (canon : String) (inter : DataFrame)
    (pares : List (String × String × DataFrame))
    (hWF : inter.WF) (hcanon : canon ∈ inter.cols)
    (hnod : (pares.map nuevoNombreCol).Nodup)
    (hps : ∀ p ∈ pares, nuevoNombreCol p ∉ inter.cols ∧
      canon ∈ p.2.2.cols ∧ p.2.1 ∈ p.2.2.cols ∧ p.2.1 ≠ canon) :
    ∃ T, tabla_final canon inter pares = Except.ok T ∧
      T.rows.length = inter.rows.length ∧
      T.cols = inter.cols ++ pares.map nuevoNombreCol ∧
      (∀ i, i < inter.rows.length →
        (T.rows.getD i []).getD (T.cols.indexOf canon) Cell.na
          = (inter.rows.getD i []).getD (inter.cols.indexOf canon) Cell.na) ∧
      (∀ i, i < inter.rows.length → ∀ p ∈ pares,
        (inter.rows.getD i []).getD (inter.cols.indexOf canon) Cell.na
            ∉ colVals p.2.2 canon →
        (T.rows.getD i []).getD (T.cols.indexOf (nuevoNombreCol p)) Cell.na = Cell.na) := by
  obtain ⟨T, hT, hcols, hlen, hrows, hWFT⟩ :=
    tabla_final_spec canon pares inter hWF hcanon hnod hps
  have hrl : ∀ i, i < inter.rows.length →
      (inter.rows.getD i []).length = inter.cols.length :=
    fun i hi => hWF _ (getD_mem_of_lt inter.rows i [] hi)
  refine ⟨T, hT, hlen, hcols, ?_, ?_⟩
  · intro i hi
    rw [hrows i hi, hcols, List.indexOf_append_of_mem hcanon]
    apply List.getD_append
    rw [hrl i hi]
    exact List.indexOf_lt_length.mpr hcanon
  · intro i hi p hp hkabs
    rw [hrows i hi, hcols]
    rw [List.indexOf_append_of_not_mem (hps p hp).1]
    rw [List.getD_append_right]
    · have harith : inter.cols.length
          + (pares.map nuevoNombreCol).indexOf (nuevoNombreCol p)
          - (inter.rows.getD i []).length
          = (pares.map nuevoNombreCol).indexOf (nuevoNombreCol p) := by
        rw [hrl i hi]
        omega
      rw [harith, pares_getD_name pares hnod p hp _]
      exact enrichCell_absent canon p _ hkabs
    · rw [hrl i hi]
      omega

/-- C4 (witness): the amended theorem applied to a two-row intersection
table and one enrichment pair; the source lacks one of the two species. -/
theorem tabla_final_frame_witness :
    interEjemplo.WF ∧ "scientificName" ∈ interEjemplo.cols ∧
      (([("X", "status", dfFuenteX)].map nuevoNombreCol).Nodup) ∧
      (∀ p ∈ [("X", "status", dfFuenteX)], nuevoNombreCol p ∉ interEjemplo.cols ∧
        "scientificName" ∈ p.2.2.cols ∧ p.2.1 ∈ p.2.2.cols ∧ p.2.1 ≠ "scientificName") ∧
      (∃ T, tabla_final "scientificName" interEjemplo [("X", "status", dfFuenteX)]
          = Except.ok T ∧
        T.rows.length = interEjemplo.rows.length ∧
        T.cols = interEjemplo.cols ++ [("X", "status", dfFuenteX)].map nuevoNombreCol ∧
        (∀ i, i < interEjemplo.rows.length →
          (T.rows.getD i []).getD (T.cols.indexOf "scientificName") Cell.na
            = (interEjemplo.rows.getD i []).getD
                (interEjemplo.cols.indexOf "scientificName") Cell.na) ∧
        (∀ i, i < interEjemplo.rows.length → ∀ p ∈ [("X", "status", dfFuenteX)],
          (interEjemplo.rows.getD i []).getD
              (interEjemplo.cols.indexOf "scientificName") Cell.na
              ∉ colVals p.2.2 "scientificName" →
          (T.rows.getD i []).getD (T.cols.indexOf (nuevoNombreCol p)) Cell.na = Cell.na)) :=
  ⟨by decide, by decide, by decide, by decide,
    tabla_final_frame "scientificName" interEjemplo [("X", "status", dfFuenteX)]
      (by decide) (by decide) (by decide) (by decide)⟩

/-- C6 (counterexample): applying the two enrichment merges in the two
possible orders yields final tables that are not equal — pandas appends
merge columns in application order, so the column order (and the cell
order within each row) differs. -/
theorem tabla_final_order_cex :
    tabla_final "scientificName" interEjemplo
        [("X", "status", dfFuenteX), ("Y", "habitat", dfFuenteY)]
      = Except.ok ⟨["scientificName", "num_fuentes", "A", "B", "X_status", "Y_habitat"],
          [[Cell.s "felis catus", Cell.n 2, Cell.n 1, Cell.n 1, Cell.s "LC", Cell.na],
           [Cell.s "canis lupus", Cell.n 2, Cell.n 1, Cell.n 1, Cell.na, Cell.s "bosque"]]⟩ ∧
      tabla_final "scientificName" interEjemplo
          [("Y", "habitat", dfFuenteY), ("X", "status", dfFuenteX)]
        = Except.ok ⟨["scientificName", "num_fuentes", "A", "B", "Y_habitat", "X_status"],
            [[Cell.s "felis catus", Cell.n 2, Cell.n 1, Cell.n 1, Cell.na, Cell.s "LC"],
             [Cell.s "canis lupus", Cell.n 2, Cell.n 1, Cell.n 1, Cell.s "bosque", Cell.na]]⟩ ∧
      (⟨["scientificName", "num_fuentes", "A", "B", "X_status", "Y_habitat"],
          [[Cell.s "felis catus", Cell.n 2, Cell.n 1, Cell.n 1, Cell.s "LC", Cell.na],
           [Cell.s "canis lupus", Cell.n 2, Cell.n 1, Cell.n 1, Cell.na, Cell.s "bosque"]]⟩
        : DataFrame)
        ≠ ⟨["scientificName", "num_fuentes", "A", "B", "Y_habitat", "X_status"],
            [[Cell.s "felis catus", Cell.n 2, Cell.n 1, Cell.n 1, Cell.na, Cell.s "LC"],
             [Cell.s "canis lupus", Cell.n 2, Cell.n 1, Cell.n 1, Cell.s "bosque", Cell.na]]⟩ :=
  ⟨rfl, rfl, by decide⟩

/-- C6 (amended): enrichment is order-independent up to column order — for
any permutation of the enrichment pairs (under the same freshness and
non-canonical-extra conditions as C4), both folds succeed and the two
final tables contain the
same columns as a multiset, the same number of rows, and the same cell at
every row index and column label. -/
theorem tabla_final_order_equiv (canon : String) (inter : DataFrame)
    (pares pares' : List (String × String × DataFrame))
    (hperm : pares.Perm pares')
    (hWF : inter.WF) (hcanon : canon ∈ inter.cols)
    (hnod : (pares.map nuevoNombreCol).Nodup)
    (hps : ∀ p ∈ pares, nuevoNombreCol p ∉ inter.cols ∧
      canon ∈ p.2.2.cols ∧ p.2.1 ∈ p.2.2.cols ∧ p.2.1 ≠ canon) :
    ∃ T T', tabla_final canon inter pares = Except.ok T ∧
      tabla_final canon inter pares' = Except.ok T' ∧ EquivTable T T' := by
  have hnod' : (pares'.map nuevoNombreCol).Nodup := (hperm.map nuevoNombreCol).nodup hnod
  have hps' : ∀ p ∈ pares', nuevoNombreCol p ∉ inter.cols ∧
      canon ∈ p.2.2.cols ∧ p.2.1 ∈ p.2.2.cols ∧ p.2.1 ≠ canon :=
    fun p hp => hps p (hperm.mem_iff.mpr hp)
  obtain ⟨T, hT, hcolsT, hlenT, hrowsT, -⟩ :=
    tabla_final_spec canon pares inter hWF hcanon hnod hps
  obtain ⟨T', hT', hcolsT', hlenT', hrowsT', -⟩ :=
    tabla_final_spec canon pares' inter hWF hcanon hnod' hps'
  have hrl : ∀ i, i < inter.rows.length →
      (inter.rows.getD i []).length = inter.cols.length :=
    fun i hi => hWF _ (getD_mem_of_lt inter.rows i [] hi)
  refine ⟨T, T', hT, hT', ?_, ?_, ?_⟩
  · rw [hcolsT, hcolsT']
    exact List.Perm.append_left inter.cols (hperm.map nuevoNombreCol)
  · rw [hlenT, hlenT']
  · intro i c hc
    rw [hcolsT] at hc
    by_cases hi : i < inter.rows.length
    · rw [hrowsT i hi, hrowsT' i hi, hcolsT, hcolsT']
      rcases List.mem_append.mp hc with hcin | hcnames
      · rw [List.indexOf_append_of_mem hcin, List.indexOf_append_of_mem hcin,
            List.getD_append, List.getD_append]
        · rw [hrl i hi]
          exact List.indexOf_lt_length.mpr hcin
        · rw [hrl i hi]
          exact List.indexOf_lt_length.mpr hcin
      · obtain ⟨p, hp, rfl⟩ := List.mem_map.mp hcnames
        have hnotin := (hps p hp).1
        rw [List.indexOf_append_of_not_mem hnotin,
            List.indexOf_append_of_not_mem hnotin]
        rw [List.getD_append_right _ _ _ _ (by rw [hrl i hi]; omega),
            List.getD_append_right _ _ _ _ (by rw [hrl i hi]; omega)]
        have harith1 : inter.cols.length
            + (pares.map nuevoNombreCol).indexOf (nuevoNombreCol p)
            - (inter.rows.getD i []).length
            = (pares.map nuevoNombreCol).indexOf (nuevoNombreCol p) := by
          rw [hrl i hi]
          omega
        have harith2 : inter.cols.length
            + (pares'.map nuevoNombreCol).indexOf (nuevoNombreCol p)
            - (inter.rows.getD i []).length
            = (pares'.map nuevoNombreCol).indexOf (nuevoNombreCol p) := by
          rw [hrl i hi]
          omega
        rw [harith1, harith2, pares_getD_name pares hnod p hp _,
            pares_getD_name pares' hnod' p (hperm.mem_iff.mp hp) _]
    · have h1 : T.rows.getD i [] = [] :=
        List.getD_eq_default _ _ (by rw [hlenT]; omega)
      have h2 : T'.rows.getD i [] = [] :=
        List.getD_eq_default _ _ (by rw [hlenT']; omega)
      rw [h1, h2]
      rfl

/-- C6 (witness): the amended theorem applied to the swap of two concrete
enrichment pairs. -/
theorem tabla_final_order_equiv_witness :
    ([("X", "status", dfFuenteX), ("Y", "habitat", dfFuenteY)]
        : List (String × String × DataFrame)).Perm
      [("Y", "habitat", dfFuenteY), ("X", "status", dfFuenteX)] ∧
      interEjemplo.WF ∧ "scientificName" ∈ interEjemplo.cols ∧
      (([("X", "status", dfFuenteX), ("Y", "habitat", dfFuenteY)].map
        nuevoNombreCol).Nodup) ∧
      (∀ p ∈ [("X", "status", dfFuenteX), ("Y", "habitat", dfFuenteY)],
        nuevoNombreCol p ∉ interEjemplo.cols ∧
        "scientificName" ∈ p.2.2.cols ∧ p.2.1 ∈ p.2.2.cols ∧ p.2.1 ≠ "scientificName") ∧
      (∃ T T', tabla_final "scientificName" interEjemplo
            [("X", "status", dfFuenteX), ("Y", "habitat", dfFuenteY)] = Except.ok T ∧
          tabla_final "scientificName" interEjemplo
            [("Y", "habitat", dfFuenteY), ("X", "status", dfFuenteX)] = Except.ok T' ∧
          EquivTable T T') :=
  ⟨by decide, by decide, by decide, by decide, by decide,
    tabla_final_order_equiv "scientificName" interEjemplo
      [("X", "status", dfFuenteX), ("Y", "habitat", dfFuenteY)]
      [("Y", "habitat", dfFuenteY), ("X", "status", dfFuenteX)]
      (by decide) (by decide) (by decide) (by decide) (by decide)⟩

theorem pasoExtra_empty (acc : List (String × String × DataFrame) × List String)
    (s : SourceCfg) (h : s.extraCol = "") : pasoExtra acc s = acc := by
  unfold pasoExtra
  rw [if_pos h]

theorem pasoExtra_ok (acc : List (String × String × DataFrame) × List String)
    (s : SourceCfg) (h1 : s.extraCol ≠ "") (h2 : s.extraCol ∈ s.dfClean.cols) :
    pasoExtra acc s = (acc.1 ++ [(s.name, s.extraCol, s.dfClean)], acc.2) := by
  unfold pasoExtra
  rw [if_neg h1, if_pos h2]

theorem pasoExtra_warn (acc : List (String × String × DataFrame) × List String)
    (s : SourceCfg) (h1 : s.extraCol ≠ "") (h2 : s.extraCol ∉ s.dfClean.cols) :
    pasoExtra acc s = (acc.1, acc.2 ++ [s.name]) := by
  unfold pasoExtra
  rw [if_neg h1, if_neg h2]

theorem procesar_extra_go (srcs : List SourceCfg) :
    ∀ m w, srcs.foldl pasoExtra (m, w)
      = (m ++ (procesar_extra srcs).1, w ++ (procesar_extra srcs).2) := by
  induction srcs with
  | nil =>
    intro m w
    simp [procesar_extra]
  | cons s ss ih =>
    intro m w
    rw [List.foldl_cons]
    by_cases h1 : s.extraCol = ""
    · rw [pasoExtra_empty _ _ h1, ih]
      have hR : procesar_extra (s :: ss) = procesar_extra ss := by
        unfold procesar_extra
        rw [List.foldl_cons, pasoExtra_empty _ _ h1]
      rw [hR]
    · by_cases h2 : s.extraCol ∈ s.dfClean.cols
      · rw [pasoExtra_ok _ _ h1 h2, ih]
        have hR : procesar_extra (s :: ss)
            = ([(s.name, s.extraCol, s.dfClean)] ++ (procesar_extra ss).1,
               (procesar_extra ss).2) := by
          unfold procesar_extra
          rw [List.foldl_cons, pasoExtra_ok _ _ h1 h2, ih]
          rfl
        rw [hR]
        rw [List.append_assoc]
      · rw [pasoExtra_warn _ _ h1 h2, ih]
        have hR : procesar_extra (s :: ss)
            = ((procesar_extra ss).1, [s.name] ++ (procesar_extra ss).2) := by
          unfold procesar_extra
          rw [List.foldl_cons, pasoExtra_warn _ _ h1 h2, ih]
          rfl
        rw [hR]
        rw [List.append_assoc]

theorem procesar_extra_warn_mem (srcs : List SourceCfg) (s0 : SourceCfg)
    (hs0 : s0 ∈ srcs) (hne : s0.extraCol ≠ "") (habs : s0.extraCol ∉ s0.dfClean.cols) :
    s0.name ∈ (procesar_extra srcs).2 := by
  induction srcs with
  | nil => cases hs0
  | cons s ss ih =>
    show s0.name ∈ ((s :: ss).foldl pasoExtra ([], [])).2
    rw [List.foldl_cons]
    rcases List.mem_cons.mp hs0 with rfl | hs0'
    · rw [pasoExtra_warn _ _ hne habs]
      rw [procesar_extra_go]
      apply List.mem_append_left
      simp
    · by_cases h1 : s.extraCol = ""
      · rw [pasoExtra_empty _ _ h1, procesar_extra_go]
        exact List.mem_append_right _ (ih hs0')
      · by_cases h2 : s.extraCol ∈ s.dfClean.cols
        · rw [pasoExtra_ok _ _ h1 h2, procesar_extra_go]
          exact List.mem_append_right _ (ih hs0')
        · rw [pasoExtra_warn _ _ h1 h2, procesar_extra_go]
          apply List.mem_append_right
          exact ih hs0'

theorem procesar_extra_pairs_mem (srcs : List SourceCfg) :
    ∀ p ∈ (procesar_extra srcs).1, ∃ s, s ∈ srcs ∧
      p = (s.name, s.extraCol, s.dfClean) ∧ s.extraCol ≠ "" ∧
      s.extraCol ∈ s.dfClean.cols := by
  induction srcs with
  | nil => intro p hp; cases hp
  | cons s ss ih =>
    intro p hp
    have hp' : p ∈ ((s :: ss).foldl pasoExtra ([], [])).1 := hp
    rw [List.foldl_cons] at hp'
    by_cases h1 : s.extraCol = ""
    · rw [pasoExtra_empty _ _ h1, procesar_extra_go] at hp'
      obtain ⟨t, ht, htp⟩ := ih p (by simpa using hp')
      exact ⟨t, List.mem_cons_of_mem s ht, htp⟩
    · by_cases h2 : s.extraCol ∈ s.dfClean.cols
      · rw [pasoExtra_ok _ _ h1 h2, procesar_extra_go] at hp'
        rcases List.mem_append.mp hp' with hh | hh
        · have hps : p = (s.name, s.extraCol, s.dfClean) := by
            simpa using hh
          exact ⟨s, List.mem_cons_self s ss, hps, h1, h2⟩
        · obtain ⟨t, ht, htp⟩ := ih p hh
          exact ⟨t, List.mem_cons_of_mem s ht, htp⟩
      · rw [pasoExtra_warn _ _ h1 h2, procesar_extra_go] at hp'
        obtain ⟨t, ht, htp⟩ := ih p (by simpa using hp')
        exact ⟨t, List.mem_cons_of_mem s ht, htp⟩

/-- C8: a source declaring an extra column that is not present in its
normalized table is skipped with a warning, not an error: its name is
recorded by the warning signal (`st.warning`, app.py:205-208), no merge
plan entry is created for it, the enrichment fold still succeeds, the
final table has no `{source}_{extra}` column for it, and the enrichment
columns of the other sources are all present and unaffected. -/
theorem procesar_extra_warning (srcs : List SourceCfg) (s0 : SourceCfg)
    (inter : DataFrame) (canon : String)
    (hs0 : s0 ∈ srcs) (hne : s0.extraCol ≠ "") (habs : s0.extraCol ∉ s0.dfClean.cols)
    (hnames : (srcs.map SourceCfg.name).Nodup)
    (hWF : inter.WF) (hcanon : canon ∈ inter.cols)
    (hnod : ((procesar_extra srcs).1.map nuevoNombreCol).Nodup)
    (hps : ∀ p ∈ (procesar_extra srcs).1, nuevoNombreCol p ∉ inter.cols ∧
      canon ∈ p.2.2.cols ∧ p.2.1 ∈ p.2.2.cols ∧ p.2.1 ≠ canon)
    (hfresh1 : s0.name ++ "_" ++ s0.extraCol ∉ inter.cols)
    (hfresh2 : s0.name ++ "_" ++ s0.extraCol
      ∉ (procesar_extra srcs).1.map nuevoNombreCol) :
    s0.name ∈ (procesar_extra srcs).2 ∧
      (∀ p ∈ (procesar_extra srcs).1, p.1 ≠ s0.name) ∧
      ∃ T, tabla_final canon inter (procesar_extra srcs).1 = Except.ok T ∧
        T.cols = inter.cols ++ (procesar_extra srcs).1.map nuevoNombreCol ∧
        (s0.name ++ "_" ++ s0.extraCol) ∉ T.cols ∧
        T.rows.length = inter.rows.length := by
  refine ⟨procesar_extra_warn_mem srcs s0 hs0 hne habs, ?_, ?_⟩
  · intro p hp heq
    obtain ⟨t, ht, hpt, -, htc⟩ := procesar_extra_pairs_mem srcs p hp
    have hname : t.name = s0.name := by
      rw [hpt] at heq
      exact heq
    have hts0 : t = s0 := List.inj_on_of_nodup_map hnames ht hs0 hname
    rw [hts0] at htc
    exact habs htc
  · obtain ⟨T, hT, hcols, hlen, -, -⟩ :=
      tabla_final_spec canon (procesar_extra srcs).1 inter hWF hcanon hnod hps
    refine ⟨T, hT, hcols, ?_, hlen⟩
    rw [hcols]
    intro hmem
    rcases List.mem_append.mp hmem with hm | hm
    · exact hfresh1 hm
    · exact hfresh2 hm

/-- C8 (witness): three sources, the middle one declaring an extra column
absent from its table; the other two contribute their columns as usual. -/
theorem procesar_extra_warning_witness :
    (⟨"B", dfFuenteB, "iucn_status"⟩ : SourceCfg)
        ∈ [⟨"X", dfFuenteX, "status"⟩, ⟨"B", dfFuenteB, "iucn_status"⟩,
           (⟨"Y", dfFuenteY, "habitat"⟩ : SourceCfg)] ∧
      ("iucn_status" : String) ≠ "" ∧
      ("iucn_status" ∉ dfFuenteB.cols) ∧
      (([⟨"X", dfFuenteX, "status"⟩, ⟨"B", dfFuenteB, "iucn_status"⟩,
        (⟨"Y", dfFuenteY, "habitat"⟩ : SourceCfg)].map SourceCfg.name).Nodup) ∧
      ("B" ∈ (procesar_extra [⟨"X", dfFuenteX, "status"⟩, ⟨"B", dfFuenteB, "iucn_status"⟩,
          (⟨"Y", dfFuenteY, "habitat"⟩ : SourceCfg)]).2 ∧
        (∀ p ∈ (procesar_extra [⟨"X", dfFuenteX, "status"⟩, ⟨"B", dfFuenteB, "iucn_status"⟩,
            (⟨"Y", dfFuenteY, "habitat"⟩ : SourceCfg)]).1, p.1 ≠ "B") ∧
        ∃ T, tabla_final "scientificName" interEjemplo
            (procesar_extra [⟨"X", dfFuenteX, "status"⟩, ⟨"B", dfFuenteB, "iucn_status"⟩,
              (⟨"Y", dfFuenteY, "habitat"⟩ : SourceCfg)]).1 = Except.ok T ∧
          T.cols = interEjemplo.cols
            ++ (procesar_extra [⟨"X", dfFuenteX, "status"⟩, ⟨"B", dfFuenteB, "iucn_status"⟩,
                 (⟨"Y", dfFuenteY, "habitat"⟩ : SourceCfg)]).1.map nuevoNombreCol ∧
          ("B" ++ "_" ++ "iucn_status") ∉ T.cols ∧
          T.rows.length = interEjemplo.rows.length) :=
  ⟨by decide, by decide, by decide, by decide,
    procesar_extra_warning
      [⟨"X", dfFuenteX, "status"⟩, ⟨"B", dfFuenteB, "iucn_status"⟩,
       (⟨"Y", dfFuenteY, "habitat"⟩ : SourceCfg)]
      ⟨"B", dfFuenteB, "iucn_status"⟩ interEjemplo "scientificName"
      (by decide) (by decide) (by decide) (by decide) (by decide) (by decide)
      (by decide) (by decide) (by decide) (by decide)⟩
